import Mathlib

/-!
Verification development for the three-card betting game server
(KimHoaCardGame, src/server.js).  The JavaScript source is shallowly
embedded: every game-logic function of the server is translated into an
executable Lean definition, machine numbers become Int (JavaScript
integer arithmetic on the values that actually occur), fallible socket
handlers become functions returning Option Room (none models the
rejection path, which leaves the room state unchanged), and the
Math.random shuffled deck becomes an explicit deck parameter.
-/

/-- A playing card, as built by createDeck in server.js: a rank string, a
suit string and the numeric value assigned by getCardValue.  The symbol
field of the source is a pure display glyph derived from the suit and is
carried along unchanged. -/
structure Card where
  rank : String
  suit : String
  value : Nat
  symbol : String
deriving Repr, DecidableEq

/-- Translation of getCardValue: the rank-to-value table (2..10 literal,
J=11, Q=12, K=13, A=14).  The JavaScript lookup yields undefined for a
string outside the table; the function is only ever applied to the 13
rank strings of createDeck, and the completion value 0 is arbitrary. -/
def getCardValue (rank : String) : Nat :=
  if rank = "2" then 2 else if rank = "3" then 3 else if rank = "4" then 4
  else if rank = "5" then 5 else if rank = "6" then 6 else if rank = "7" then 7
  else if rank = "8" then 8 else if rank = "9" then 9 else if rank = "10" then 10
  else if rank = "J" then 11 else if rank = "Q" then 12 else if rank = "K" then 13
  else if rank = "A" then 14 else 0

/-- Translation of getCardSymbol: suit display glyph. -/
def getCardSymbol (suit : String) : String :=
  if suit = "hearts" then "♥" else if suit = "diamonds" then "♦"
  else if suit = "clubs" then "♣" else if suit = "spades" then "♠"
  else ""

/-- The four suit names, in the order createDeck iterates them. -/
def suitNames : List String := ["hearts", "diamonds", "clubs", "spades"]

/-- The thirteen rank names, in the order createDeck iterates them. -/
def rankNames : List String :=
  ["2", "3", "4", "5", "6", "7", "8", "9", "10", "J", "Q", "K", "A"]

/-- Translation of createDeck: 52 cards, suit-major order, each with the
value and symbol fixed at creation time. -/
def createDeck : List Card :=
  suitNames.flatMap (fun suit =>
    rankNames.map (fun rank =>
      { rank := rank, suit := suit, value := getCardValue rank,
        symbol := getCardSymbol suit }))

/-- Insert one element into a list that is ordered by the comparator
cmp, placing it before the first element it does not compare strictly
greater than.  Together with sortByCmp this models the stable
Array.prototype.sort of JavaScript for a consistent comparator. -/
def insertByCmp {α : Type} (cmp : α → α → Int) (x : α) : List α → List α
  | [] => [x]
  | y :: ys => if cmp x y ≤ 0 then x :: y :: ys else y :: insertByCmp cmp x ys

/-- Stable insertion sort driven by a JavaScript-style comparator
(negative means the first argument sorts earlier). -/
def sortByCmp {α : Type} (cmp : α → α → Int) : List α → List α
  | [] => []
  | x :: xs => insertByCmp cmp x (sortByCmp cmp xs)

/-- The comparator (a, b) => b.value - a.value used by evaluateHand to
sort a hand into descending card value order. -/
def sortCardsDesc (cards : List Card) : List Card :=
  sortByCmp (fun a b => (b.value : Int) - (a.value : Int)) cards

/-- Result record of evaluateHand: a category name, a numeric tie-break
value and a human description, exactly the fields built in server.js. -/
structure HandEval where
  type : String
  value : Nat
  description : String
deriving Repr, DecidableEq

/-- Translation of evaluateHand.  The source sorts the three cards by
descending value and then walks the category chain: three of a kind,
straight flush, flush, straight, pair (two adjacent-rank checks), high
card, with the A-2-3 special straight ([14, 3, 2] after sorting).  The
source is only ever applied to three-card hands; on any other list this
embedding returns the fixed record below (the JavaScript behaviour there
is undefined-value arithmetic that never occurs in the program). -/
def evaluateHand (cards : List Card) : HandEval :=
  match sortCardsDesc cards with
  | [c0, c1, c2] =>
    if c0.rank = c1.rank ∧ c1.rank = c2.rank then
      { type := "three-of-a-kind", value := c0.value * 100,
        description := "Ba lá " ++ c0.rank }
    else
      let isSameSuit := c1.suit = c0.suit ∧ c2.suit = c0.suit
      let isStraight := (c0.value - c1.value = 1 ∧ c1.value - c2.value = 1) ∨
                        (c0.value = 14 ∧ c1.value = 3 ∧ c2.value = 2)
      if isSameSuit ∧ isStraight then
        { type := "straight-flush", value := c0.value * 1000,
          description := "Sảnh đồng chất " ++ c0.rank }
      else if isSameSuit then
        { type := "flush", value := c0.value * 10000 + c1.value * 100 + c2.value,
          description := "Đồng chất " ++ c0.suit }
      else if isStraight then
        { type := "straight", value := c0.value * 100,
          description := "Sảnh " ++ c0.rank }
      else if c0.rank = c1.rank then
        { type := "pair", value := c0.value * 100 + c2.value,
          description := "Đôi " ++ c0.rank }
      else if c1.rank = c2.rank then
        { type := "pair", value := c1.value * 100 + c0.value,
          description := "Đôi " ++ c1.rank }
      else
        { type := "high-card", value := c0.value * 10000 + c1.value * 100 + c2.value,
          description := "Lẻ " ++ c0.rank ++ " cao" }
  | _ => { type := "high-card", value := 0, description := "" }

/-- The category rank table of compareHands.  In the source this is an
object lookup; every HandEval produced by evaluateHand carries one of
the six keys below, and compareHands is applied only to such records, so
the completion value 0 for other strings is never exercised. -/
def handTypeRank (t : String) : Nat :=
  if t = "high-card" then 1 else if t = "pair" then 2
  else if t = "straight" then 3 else if t = "flush" then 4
  else if t = "straight-flush" then 5 else if t = "three-of-a-kind" then 6
  else 0

/-- Translation of compareHands: compare category ranks first, then the
numeric tie-break value; 1, -1 or 0. -/
def compareHands (h1 h2 : HandEval) : Int :=
  if handTypeRank h1.type > handTypeRank h2.type then 1
  else if handTypeRank h1.type < handTypeRank h2.type then -1
  else if h1.value > h2.value then 1
  else if h1.value < h2.value then -1
  else 0

/-- A seated player, with the fields created at create-room / join-room
plus the dynamically added actedThisRound flag.  money is an Int:
JavaScript number arithmetic on the integer values this program
produces. -/
structure Player where
  id : String
  name : String
  money : Int
  hand : List Card
  viewedCards : Bool
  folded : Bool
  currentBet : Int
  position : Nat
  connected : Bool
  allIn : Bool
  actedThisRound : Bool
deriving Repr, DecidableEq

/-- One bet-ledger record, as appended by the place-bet handler (the
timestamp string of the source is pure logging and is omitted). -/
structure BetEntry where
  playerId : String
  playerName : String
  declaredAmount : Int
  actualAmount : Int
  viewedCards : Bool
deriving Repr, DecidableEq

/-- The room aggregate.  dealerIndex and currentTurn are Int because the
source stores -1 in them (no dealer yet / nobody can act).  The fields
host, code, createdAt and settings play no role in the verified logic
but are kept where the handlers read them. -/
structure Room where
  code : String
  host : String
  players : List Player
  gameState : String
  currentRound : Nat
  dealerIndex : Int
  pot : Int
  deck : List Card
  currentTurn : Int
  minBet : Int
  tournamentRound : Nat
  tournamentPlayers : List Player
  betHistory : List BetEntry
  lastRaise : Option String
  handsPlayed : Nat
  startingPlayerCount : Nat
deriving Repr, DecidableEq

/-- Converts the Option Nat result of a seat scan to the Int the source
stores in room.currentTurn (-1 for none). -/
def optIdx : Option Nat → Int
  | some i => (i : Int)
  | none => -1

/-- The cyclic scan shared by getNextActivePlayerIndex and
getFirstPlayerAfterDealer: starting at idx, visit up to fuel seats,
returning the first one whose occupant satisfies pred.  fuel is the
count bound of the while loop in the source (one full lap). -/
def scanSeats (players : List Player) (pred : Player → Bool) : Nat → Nat → Option Nat
  | _, 0 => none
  | idx, fuel + 1 =>
    match players.get? idx with
    | some p => if pred p then some idx
                else scanSeats players pred ((idx + 1) % players.length) fuel
    | none => none

/-- Translation of getNextActivePlayerIndex: first seat after
startIndex, cyclically, whose player is not folded, has money and is not
all-in; none models the -1 return. -/
def getNextActivePlayerIndex (room : Room) (startIndex : Nat) : Option Nat :=
  let n := room.players.length
  if n = 0 then none
  else scanSeats room.players (fun p => !p.folded && p.money > 0 && !p.allIn)
    ((startIndex + 1) % n) n

/-- Translation of getFirstPlayerAfterDealer: first seat after the
dealer, cyclically, whose player is not folded and has money.  The
source computes (dealerIndex + 1) % length on a dealerIndex that is a
valid seat whenever this is called. -/
def getFirstPlayerAfterDealer (room : Room) : Option Nat :=
  let n := room.players.length
  if n = 0 then none
  else scanSeats room.players (fun p => !p.folded && p.money > 0)
    (((room.dealerIndex + 1) % (n : Int)).toNat % n) n

/-- The dealing loop of startNewHand: n times, if the deck is nonempty,
pop a card from its end and push it onto the hand. -/
def dealCards : Nat → List Card → List Card → List Card × List Card
  | 0, deck, hand => (hand, deck)
  | n + 1, deck, hand =>
    match deck.getLast? with
    | some c => dealCards n deck.dropLast (hand ++ [c])
    | none => dealCards n deck hand

/-- The per-player body of the forEach loop in startNewHand: reset the
per-hand fields, then either collect the ante min(100, money) and deal
three cards (money > 0) or auto-fold (otherwise).  The accumulator
carries the pot built so far, the remaining deck and the processed
players in seat order. -/
def anteAndDeal (acc : Int × List Card × List Player) (p0 : Player) :
    Int × List Card × List Player :=
  let pot := acc.1
  let deck := acc.2.1
  let done := acc.2.2
  let p := { p0 with hand := [], viewedCards := false, folded := false,
                     currentBet := 0, allIn := false, actedThisRound := false }
  if p.money > 0 then
    let ante := min 100 p.money
    let dealt := dealCards 3 deck []
    (pot + ante, dealt.2,
     done ++ [{ p with money := p.money - ante, currentBet := ante, hand := dealt.1 }])
  else
    (pot, deck, done ++ [{ p with folded := true }])

/-- Translation of startNewHand.  The source assigns a freshly shuffled
deck (Math.random); here the shuffled deck is the newDeck parameter.
Resets pot, minBet, round, ledger and lastRaise, processes every player
through anteAndDeal, rotates the dealer one seat, recomputes the
opening turn and counts the hand. -/
def startNewHand (room : Room) (newDeck : List Card) : Room :=
  let folded := room.players.foldl anteAndDeal (0, newDeck, [])
  let room1 : Room :=
    { room with
      pot := folded.1,
      minBet := 100,
      currentRound := 1,
      betHistory := [],
      lastRaise := none,
      deck := folded.2.1,
      players := folded.2.2,
      dealerIndex := (room.dealerIndex + 1) % ((folded.2.2).length : Int),
      handsPlayed := room.handsPlayed + 1 }
  { room1 with currentTurn := optIdx (getFirstPlayerAfterDealer room1) }

/-- Translation of isHandFinished: at most one non-folded player with
money, or nobody left who can voluntarily act. -/
def isHandFinished (room : Room) : Bool :=
  let active := room.players.filter (fun p => !p.folded && p.money > 0)
  if active.length ≤ 1 then true
  else (active.filter (fun p => !p.allIn && p.money > 0)).length = 0

/-- The result record returned by resolveHand (winner, eliminated list
and the pot that was at stake). -/
structure HandResult where
  winner : Option Player
  eliminated : List Player
  pot : Int
deriving Repr, DecidableEq

/-- Translation of resolveHand.  active is the list of non-folded
players with money > 0.  With two or more active players their hands
are evaluated, sorted best-first with the compareHands comparator, and
every hand whose numeric value equals the value of the best hand wins;
the pot is split by floor division among several winners, in full to a
single winner.  The source mutates the winning player objects in
place; this embedding applies the credit to every seated player whose
id is a winner id (player ids are unique in a room). -/
def resolveHand (room : Room) : Room × HandResult :=
  let active := room.players.filter (fun p => !p.folded && p.money > 0)
  if active.length = 0 then
    (room, { winner := none, eliminated := room.players.filter (fun p => p.money ≤ 0),
             pot := room.pot })
  else
    let winners :=
      if active.length = 1 then active
      else
        let evaluated := active.map (fun p => (p, evaluateHand p.hand))
        let sorted := sortByCmp (fun a b => compareHands b.2 a.2) evaluated
        let bestScore := ((sorted.head?).map (fun e => e.2.value)).getD 0
        (sorted.filter (fun e => e.2.value = bestScore)).map (fun e => e.1)
    let credit : Int :=
      if winners.length > 1 then room.pot.fdiv winners.length else room.pot
    let winnerIds := winners.map (fun w => w.id)
    let players1 := room.players.map (fun p =>
      if winnerIds.contains p.id then { p with money := p.money + credit } else p)
    let room1 := { room with players := players1 }
    ({ room with players := players1 },
     { winner := (winners.head?).map (fun w =>
         ((players1.find? (fun p => p.id == w.id)).getD { w with money := w.money + credit })),
       eliminated := room1.players.filter (fun p => p.money ≤ 0),
       pot := room.pot })

/-- The outcome data emitted after a hand: whether the tournament ended,
and on end, the declared champion and the final ranking. -/
structure TournamentOutcome where
  ended : Bool
  winner : Option Player
  rankings : List Player
deriving Repr, DecidableEq

/-- The tournament-end condition tested by afterHandEnded on the pruned
roster: at most one solvent roster member, or the hand counter has
reached the starting player count. -/
def tournamentEndCondition (room : Room) : Bool :=
  (room.tournamentPlayers.filter (fun tp => tp.money > 0)).length ≤ 1 ||
    room.handsPlayed ≥ room.startingPlayerCount

/-- Translation of afterHandEnded, minus the setTimeout scheduling: the
roster is pruned to solvent players, the end condition is evaluated, and
on end the game state becomes ended, the rankings are the seated players
sorted by descending money (comparator (a, b) => b.money - a.money) and
the champion is roster[0] (none for an empty roster).  When the
tournament continues the source schedules startNewHand after a fixed
delay; that deferred call is modelled separately by nextHandTimerFire. -/
def afterHandEnded (room : Room) : Room × TournamentOutcome :=
  let roster := room.tournamentPlayers.filter (fun tp => tp.money > 0)
  let room1 := { room with tournamentPlayers := roster }
  let ended := roster.length ≤ 1 || room1.handsPlayed ≥ room1.startingPlayerCount
  if ended then
    ({ room1 with gameState := "ended" },
     { ended := true,
       winner := roster.head?,
       rankings := sortByCmp (fun a b => b.money - a.money) room1.players })
  else
    (room1, { ended := false, winner := none, rankings := [] })

/-- The body of the setTimeout callback scheduled by afterHandEnded: it
calls startNewHand unconditionally, with no re-check of the
tournament-end condition at fire time. -/
def nextHandTimerFire (room : Room) (newDeck : List Card) : Room :=
  startNewHand room newDeck

/-- Translation of the view-cards handler.  pid is the socket id of the
sender.  none models every rejection branch (unknown player, cards
already viewed, out of turn); each rejection leaves the room unchanged.
Note the source neither checks the folded flag nor advances the turn
here. -/
def viewCards (room : Room) (pid : String) : Option Room :=
  match room.players.findIdx? (fun p => p.id == pid) with
  | none => none
  | some i =>
    match room.players.get? i with
    | none => none
    | some player =>
      if player.viewedCards then none
      else if room.currentTurn ≠ (i : Int) then none
      else some { room with players := room.players.set i { player with viewedCards := true } }

/-- Translation of the place-bet handler up to the turn advance (the
subsequent round-completion and hand-completion checks are the separate
source functions isRoundComplete, checkAndAdvanceRound, isHandFinished,
resolveHand, modelled below).  amount is the declared amount after the
parseInt of the source.  none models every rejection branch, each of
which leaves the room unchanged. -/
def placeBet (room : Room) (pid : String) (amount : Int) : Option Room :=
  match room.players.findIdx? (fun p => p.id == pid) with
  | none => none
  | some i =>
    match room.players.get? i with
    | none => none
    | some player =>
      if player.folded then none
      else if room.currentTurn ≠ (i : Int) then none
      else if amount < room.minBet then none
      else
        let actualAmount := if player.viewedCards then amount else amount.fdiv 2
        if player.money < actualAmount then none
        else
          let player1 := { player with
            money := player.money - actualAmount,
            currentBet := player.currentBet + actualAmount,
            actedThisRound := true }
          let room1 := { room with
            players := room.players.set i player1,
            pot := room.pot + actualAmount }
          let room2 :=
            if amount > room1.minBet then
              { room1 with minBet := amount, lastRaise := some pid }
            else room1
          let room3 := { room2 with betHistory := room2.betHistory ++
            [({ playerId := pid, playerName := player1.name, declaredAmount := amount,
                actualAmount := actualAmount,
                viewedCards := player1.viewedCards } : BetEntry)] }
          some { room3 with currentTurn := optIdx (getNextActivePlayerIndex room3 i) }

/-- Translation of the fold handler up to the turn advance. -/
def foldHand (room : Room) (pid : String) : Option Room :=
  match room.players.findIdx? (fun p => p.id == pid) with
  | none => none
  | some i =>
    match room.players.get? i with
    | none => none
    | some player =>
      if player.folded then none
      else if room.currentTurn ≠ (i : Int) then none
      else
        let room1 := { room with
          players := room.players.set i
            { player with folded := true, actedThisRound := true } }
        some { room1 with currentTurn := optIdx (getNextActivePlayerIndex room1 i) }

/-- Translation of the all-in handler up to the turn advance: the whole
remaining balance is wagered with no minimum-bet or half-price rule, the
all-in flag is set, and the minBet ratchet uses the full wagered
amount. -/
def allInMove (room : Room) (pid : String) : Option Room :=
  match room.players.findIdx? (fun p => p.id == pid) with
  | none => none
  | some i =>
    match room.players.get? i with
    | none => none
    | some player =>
      if player.folded then none
      else if player.allIn then none
      else if room.currentTurn ≠ (i : Int) then none
      else
        let allInAmount := player.money
        let player1 := { player with
          money := 0,
          currentBet := player.currentBet + allInAmount,
          allIn := true,
          actedThisRound := true }
        let room1 := { room with
          players := room.players.set i player1,
          pot := room.pot + allInAmount }
        let room2 :=
          if allInAmount > room1.minBet then
            { room1 with minBet := allInAmount, lastRaise := some pid }
          else room1
        some { room2 with currentTurn := optIdx (getNextActivePlayerIndex room2 i) }

/-- Translation of the compare-cards handler up to the turn advance.
pid challenges tid.  The gate: both players exist, neither is folded,
the betting round is at least 2, it is the turn of pid, and the
accumulated currentBet of pid covers minBet under the viewed/unviewed
pricing.  On acceptance the hand comparison folds the loser (a draw
folds nobody), the challenger is marked acted, and no money moves. -/
def compareCards (room : Room) (pid tid : String) : Option Room :=
  match room.players.findIdx? (fun p => p.id == pid) with
  | none => none
  | some i =>
    match room.players.findIdx? (fun p => p.id == tid) with
    | none => none
    | some j =>
      match room.players.get? i, room.players.get? j with
      | some player, some opponent =>
        if player.folded || opponent.folded then none
        else if room.currentRound < 2 then none
        else if room.currentTurn ≠ (i : Int) then none
        else
          let requiredActual := if player.viewedCards then room.minBet
                                else room.minBet.fdiv 2
          if player.currentBet < requiredActual then none
          else
            let hand1 := evaluateHand player.hand
            let hand2 := evaluateHand opponent.hand
            let result := compareHands hand1 hand2
            let players1 :=
              if result > 0 then room.players.set j { opponent with folded := true }
              else if result < 0 then room.players.set i { player with folded := true }
              else room.players
            let players2 :=
              match players1.get? i with
              | some q => players1.set i { q with actedThisRound := true }
              | none => players1
            let room1 := { room with players := players2 }
            some { room1 with currentTurn := optIdx (getNextActivePlayerIndex room1 i) }
      | _, _ => none

/-- Translation of isRoundComplete: everyone still able to act has
acted this round (vacuously true when nobody can act). -/
def isRoundComplete (room : Room) : Bool :=
  let canAct := room.players.filter (fun p => !p.folded && p.money > 0 && !p.allIn)
  if canAct.length = 0 then true
  else canAct.all (fun p => p.actedThisRound)

/-- Translation of checkAndAdvanceRound: with two or more contenders,
clear all acted flags, bump the round counter and reset the turn to the
first player after the dealer; otherwise change nothing. -/
def checkAndAdvanceRound (room : Room) : Room × Bool :=
  let active := room.players.filter (fun p => !p.folded && p.money > 0)
  if active.length ≤ 1 then (room, false)
  else
    let room1 := { room with
      players := room.players.map (fun (p : Player) => { p with actedThisRound := false }),
      currentRound := room.currentRound + 1 }
    ({ room1 with currentTurn := optIdx (getFirstPlayerAfterDealer room1) }, true)

/-- One accepted in-hand action, as dispatched by the socket handlers:
an accepted place-bet, fold, all-in, view-cards or compare-cards
mutation, or the round advance the handlers run when the betting round
completes.  Hand resolution is excluded: the relation describes states
within a single hand. -/
inductive HandStep : Room → Room → Prop
  | placeBet (r r' : Room) (pid : String) (amount : Int) :
      placeBet r pid amount = some r' → HandStep r r'
  | fold (r r' : Room) (pid : String) :
      foldHand r pid = some r' → HandStep r r'
  | allIn (r r' : Room) (pid : String) :
      allInMove r pid = some r' → HandStep r r'
  | viewCards (r r' : Room) (pid : String) :
      viewCards r pid = some r' → HandStep r r'
  | compareCards (r r' : Room) (pid tid : String) :
      compareCards r pid tid = some r' → HandStep r r'
  | advanceRound (r : Room) :
      isRoundComplete r = true → HandStep r (checkAndAdvanceRound r).1

/-- The in-hand accounting invariant: the pot is exactly the sum of the
per-player currentBet accumulators, every accumulator is nonnegative,
the table minimum never drops below the ante floor, and no non-folded
player has negative money. -/
structure HandInv (room : Room) : Prop where
  pot_eq : room.pot = (room.players.map (fun p => p.currentBet)).sum
  bets_nonneg : ∀ p ∈ room.players, 0 ≤ p.currentBet
  minBet_ge : 100 ≤ room.minBet
  money_nonneg : ∀ p ∈ room.players, p.folded = false → 0 ≤ p.money

/-- The six category strings an evaluateHand result can carry. -/
def handCategories : List String :=
  ["three-of-a-kind", "straight-flush", "flush", "straight", "pair", "high-card"]

/-- The hand 3 of spades, 3 of hearts, 3 of diamonds. -/
def handTripleThrees : List Card :=
  [⟨"3", "spades", 3, "♠"⟩, ⟨"3", "hearts", 3, "♥"⟩, ⟨"3", "diamonds", 3, "♦"⟩]

/-- The hand A, K, Q, all of spades. -/
def handSpadeAKQ : List Card :=
  [⟨"A", "spades", 14, "♠"⟩, ⟨"K", "spades", 13, "♠"⟩, ⟨"Q", "spades", 12, "♠"⟩]

/-- The hand A, 2, 3 with mismatched suits. -/
def handA23Off : List Card :=
  [⟨"A", "spades", 14, "♠"⟩, ⟨"2", "hearts", 2, "♥"⟩, ⟨"3", "clubs", 3, "♣"⟩]

/-- The hand A, 2, 3, all of spades. -/
def handA23Suited : List Card :=
  [⟨"A", "spades", 14, "♠"⟩, ⟨"2", "spades", 2, "♠"⟩, ⟨"3", "spades", 3, "♠"⟩]

/-- The straight 4, 3, 2 with mismatched suits. -/
def hand234 : List Card :=
  [⟨"4", "hearts", 4, "♥"⟩, ⟨"3", "clubs", 3, "♣"⟩, ⟨"2", "spades", 2, "♠"⟩]

/-! ### Concrete rooms used by the witnesses -/

/-- A concrete seated player used by the witnesses. -/
def alicePlayer : Player :=
  { id := "a", name := "Alice", money := 900, hand := handTripleThrees,
    viewedCards := false, folded := false, currentBet := 100, position := 0,
    connected := true, allIn := false, actedThisRound := false }

/-- A concrete seated player used by the witnesses. -/
def bobPlayer : Player :=
  { id := "b", name := "Bob", money := 900, hand := hand234,
    viewedCards := false, folded := false, currentBet := 100, position := 1,
    connected := true, allIn := false, actedThisRound := false }

/-- A concrete two-player room in mid-hand, Bob to act. -/
def sampleRoom : Room :=
  { code := "ROOM01", host := "a", players := [alicePlayer, bobPlayer],
    gameState := "playing", currentRound := 1, dealerIndex := 0, pot := 200,
    deck := [], currentTurn := 1, minBet := 100, tournamentRound := 1,
    tournamentPlayers := [alicePlayer, bobPlayer], betHistory := [],
    lastRaise := none, handsPlayed := 1, startingPlayerCount := 2 }

/-- Bob with only 60 left, below the 100 table minimum. -/
def poorBobPlayer : Player := { bobPlayer with money := 60 }

/-- The sample room with the short-stacked Bob to act. -/
def shortStackRoom : Room :=
  { sampleRoom with players := [alicePlayer, poorBobPlayer] }

/-- The sample room advanced to betting round 2, where duels are
allowed. -/
def duelRoom : Room := { sampleRoom with currentRound := 2 }

/-- The sample room with only Alice left on the tournament roster, so
that the tournament-end condition already holds. -/
def staleTimerRoom : Room := { sampleRoom with tournamentPlayers := [alicePlayer] }

/-- The sample room at the hand cap: handsPlayed has reached the
starting player count of 2 while both players are still solvent. -/
def capRoom : Room := { sampleRoom with handsPlayed := 2 }

/-- The record anteAndDeal produces for a solvent player: per-hand flags
cleared, the ante min(100, money) charged into currentBet, and the hand
dealt from the end of deck0. -/
def anteSolvent (deck0 : List Card) (p : Player) : Player :=
  { p with
    hand := (dealCards 3 deck0 []).1, viewedCards := false, folded := false,
    currentBet := min 100 p.money, allIn := false, actedThisRound := false,
    money := p.money - min 100 p.money }

/-- The record anteAndDeal produces for a broke player: per-hand flags
cleared and the player auto-folded with an empty hand. -/
def anteBroke (p : Player) : Player :=
  { p with
    hand := [], viewedCards := false, folded := true, currentBet := 0,
    allIn := false, actedThisRound := false }

/-- The hand 5 of spades, 5 of hearts, 5 of diamonds (value 500 as
three of a kind). -/
def handTripleFives : List Card :=
  [⟨"5", "spades", 5, "♠"⟩, ⟨"5", "hearts", 5, "♥"⟩, ⟨"5", "diamonds", 5, "♦"⟩]

/-- The mixed-suit straight 5-4-3 (value 500 as a straight). -/
def handStraightFive : List Card :=
  [⟨"5", "clubs", 5, "♣"⟩, ⟨"4", "spades", 4, "♠"⟩, ⟨"3", "hearts", 3, "♥"⟩]

/-- Alice holding triple fives. -/
def aliceTrips : Player := { alicePlayer with hand := handTripleFives, money := 1000 }

/-- Bob holding the 5-high straight. -/
def bobStraight : Player := { bobPlayer with hand := handStraightFive, money := 1000 }

/-- A showdown room where the three-of-a-kind and the straight carry the
same numeric value 500 in different categories. -/
def cexRoomC2 : Room :=
  { sampleRoom with players := [aliceTrips, bobStraight], pot := 100 }

/-! ### Helper lemmas about compareHands -/

lemma compareHands_self (h : HandEval) : compareHands h h = 0 := by
  unfold compareHands
  split_ifs <;> (try simp only [false_iff, true_iff]) <;> omega

lemma compareHands_eq_one_iff (a b : HandEval) :
    compareHands a b = 1 ↔
      handTypeRank b.type < handTypeRank a.type ∨
        (handTypeRank a.type = handTypeRank b.type ∧ b.value < a.value) := by
  unfold compareHands
  split_ifs <;> (try simp only [false_iff, true_iff]) <;> omega

lemma compareHands_eq_negOne_iff (a b : HandEval) :
    compareHands a b = -1 ↔
      handTypeRank a.type < handTypeRank b.type ∨
        (handTypeRank a.type = handTypeRank b.type ∧ a.value < b.value) := by
  unfold compareHands
  split_ifs <;> (try simp only [false_iff, true_iff]) <;> omega

lemma compareHands_eq_zero_iff (a b : HandEval) :
    compareHands a b = 0 ↔
      handTypeRank a.type = handTypeRank b.type ∧ a.value = b.value := by
  unfold compareHands
  split_ifs <;> (try simp only [false_iff, true_iff]) <;> omega

lemma compareHands_le_zero_iff (a b : HandEval) :
    compareHands a b ≤ 0 ↔
      handTypeRank a.type < handTypeRank b.type ∨
        (handTypeRank a.type = handTypeRank b.type ∧ a.value ≤ b.value) := by
  unfold compareHands
  split_ifs <;> (try simp only [false_iff, true_iff]) <;> omega

lemma compareHands_total (a b : HandEval) :
    compareHands a b ≤ 0 ∨ compareHands b a ≤ 0 := by
  rw [compareHands_le_zero_iff, compareHands_le_zero_iff]
  omega

lemma compareHands_trans_le {a b c : HandEval}
    (h1 : compareHands a b ≤ 0) (h2 : compareHands b c ≤ 0) :
    compareHands a c ≤ 0 := by
  rw [compareHands_le_zero_iff] at h1 h2 ⊢
  omega

lemma evaluateHand_type_mem (cards : List Card) :
    (evaluateHand cards).type ∈ handCategories := by
  unfold evaluateHand handCategories
  split
  · dsimp only
    repeat' split
    all_goals simp
  · simp

lemma handTypeRank_inj_on_categories {s t : String}
    (hs : s ∈ handCategories) (ht : t ∈ handCategories)
    (h : handTypeRank s = handTypeRank t) : s = t := by
  simp only [handCategories, List.mem_cons, List.not_mem_nil, or_false] at hs ht
  rcases hs with rfl | rfl | rfl | rfl | rfl | rfl <;>
    rcases ht with rfl | rfl | rfl | rfl | rfl | rfl <;>
      first
        | rfl
        | (exfalso; revert h; decide)

/-! ### Helper lemmas about the comparator-driven insertion sort -/

lemma insertByCmp_perm {α : Type} (cmp : α → α → Int) (x : α) (l : List α) :
    List.Perm (insertByCmp cmp x l) (x :: l) := by
  induction l with
  | nil => simp [insertByCmp]
  | cons y ys ih =>
    unfold insertByCmp
    split
    · exact List.Perm.refl _
    · exact List.Perm.trans (List.Perm.cons y ih) (List.Perm.swap x y ys)

lemma sortByCmp_perm {α : Type} (cmp : α → α → Int) (l : List α) :
    List.Perm (sortByCmp cmp l) l := by
  induction l with
  | nil => exact List.Perm.refl _
  | cons x xs ih =>
    exact List.Perm.trans (insertByCmp_perm cmp x (sortByCmp cmp xs)) (List.Perm.cons x ih)

lemma insertByCmp_pairwise {α : Type} {cmp : α → α → Int}
    (tot : ∀ a b : α, cmp a b ≤ 0 ∨ cmp b a ≤ 0)
    (tr : ∀ a b c : α, cmp a b ≤ 0 → cmp b c ≤ 0 → cmp a c ≤ 0)
    (x : α) {l : List α}
    (hl : List.Pairwise (fun a b => cmp a b ≤ 0) l) :
    List.Pairwise (fun a b => cmp a b ≤ 0) (insertByCmp cmp x l) := by
  induction l with
  | nil => simp [insertByCmp]
  | cons y ys ih =>
    rcases List.pairwise_cons.mp hl with ⟨hy, hys⟩
    unfold insertByCmp
    split
    · rename_i hxy
      refine List.pairwise_cons.mpr ⟨?_, hl⟩
      intro z hz
      rcases List.mem_cons.mp hz with rfl | hz2
      · exact hxy
      · exact tr x y z hxy (hy z hz2)
    · rename_i hxy
      have hyx : cmp y x ≤ 0 := by
        rcases tot x y with h | h
        · exact absurd h hxy
        · exact h
      refine List.pairwise_cons.mpr ⟨?_, ih hys⟩
      intro z hz
      have hz1 := (insertByCmp_perm cmp x ys).mem_iff.mp hz
      rcases List.mem_cons.mp hz1 with rfl | hz2
      · exact hyx
      · exact hy z hz2

lemma sortByCmp_pairwise {α : Type} {cmp : α → α → Int}
    (tot : ∀ a b : α, cmp a b ≤ 0 ∨ cmp b a ≤ 0)
    (tr : ∀ a b c : α, cmp a b ≤ 0 → cmp b c ≤ 0 → cmp a c ≤ 0)
    (l : List α) :
    List.Pairwise (fun a b => cmp a b ≤ 0) (sortByCmp cmp l) := by
  induction l with
  | nil => simp [sortByCmp]
  | cons x xs ih => exact insertByCmp_pairwise tot tr x ih

/-- The head of the comparator sort is a maximum: for every list member
x, cmp head x ≤ 0 (the head sorts no later than x). -/
lemma sortByCmp_head_min {α : Type} {cmp : α → α → Int}
    (tot : ∀ a b : α, cmp a b ≤ 0 ∨ cmp b a ≤ 0)
    (tr : ∀ a b c : α, cmp a b ≤ 0 → cmp b c ≤ 0 → cmp a c ≤ 0)
    (rfl0 : ∀ a : α, cmp a a ≤ 0)
    {l : List α} {h : α} (hh : (sortByCmp cmp l).head? = some h)
    {x : α} (hx : x ∈ l) : cmp h x ≤ 0 := by
  have hmem : x ∈ sortByCmp cmp l := (sortByCmp_perm cmp l).mem_iff.mpr hx
  have hpw := sortByCmp_pairwise tot tr l
  cases hs : sortByCmp cmp l with
  | nil => rw [hs] at hmem; cases hmem
  | cons a rest =>
    rw [hs] at hmem hpw hh
    simp only [List.head?_cons, Option.some.injEq] at hh
    subst hh
    rcases List.mem_cons.mp hmem with rfl | hmem2
    · exact rfl0 x
    · exact (List.pairwise_cons.mp hpw).1 x hmem2

/-- Bound on the tie-break value in the straight and straight-flush
branches of evaluateHand: with card values at most 14 (as createDeck
produces), a straight values at most 1400 and a straight flush at most
14000. -/
lemma evaluateHand_straight_value_le (cards : List Card)
    (hb : ∀ c ∈ cards, c.value ≤ 14) :
    ((evaluateHand cards).type = "straight" → (evaluateHand cards).value ≤ 1400) ∧
    ((evaluateHand cards).type = "straight-flush" → (evaluateHand cards).value ≤ 14000) := by
  unfold evaluateHand
  split
  · rename_i c0 c1 c2 heq
    have hc0 : c0.value ≤ 14 := by
      have hmem : c0 ∈ sortCardsDesc cards := by
        rw [heq]; exact List.mem_cons_self _ _
      exact hb c0 ((sortByCmp_perm _ cards).mem_iff.mp hmem)
    dsimp only
    repeat' split
    all_goals
      constructor <;> intro ht <;> simp only [] at ht ⊢ <;>
        first
          | omega
          | (exact absurd ht (by decide))
  · constructor <;> intro ht <;> exact absurd ht (by decide)

/-- Claim C5: compareHands is the lexicographic order on
(category, value) under the fixed category order high-card(1) <
pair(2) < straight(3) < flush(4) < straight-flush(5) <
three-of-a-kind(6) (the handTypeRank table): on evaluated hands it
returns 1 exactly when the first hand is strictly greater in that
order, -1 exactly when strictly smaller, and 0 exactly when category
and value both coincide; every three-of-a-kind hand outranks every
straight-flush hand, in particular triple threes beat the A-K-Q of
spades; and compareHands of a hand with itself is 0. -/
theorem claim_C5 :
    (∀ ca cb : List Card,
      (compareHands (evaluateHand ca) (evaluateHand cb) = 1 ↔
        handTypeRank (evaluateHand cb).type < handTypeRank (evaluateHand ca).type ∨
          (handTypeRank (evaluateHand ca).type = handTypeRank (evaluateHand cb).type ∧
            (evaluateHand cb).value < (evaluateHand ca).value)) ∧
      (compareHands (evaluateHand ca) (evaluateHand cb) = -1 ↔
        handTypeRank (evaluateHand ca).type < handTypeRank (evaluateHand cb).type ∨
          (handTypeRank (evaluateHand ca).type = handTypeRank (evaluateHand cb).type ∧
            (evaluateHand ca).value < (evaluateHand cb).value)) ∧
      (compareHands (evaluateHand ca) (evaluateHand cb) = 0 ↔
        (evaluateHand ca).type = (evaluateHand cb).type ∧
          (evaluateHand ca).value = (evaluateHand cb).value)) ∧
    (∀ ct cs : List Card, (evaluateHand ct).type = "three-of-a-kind" →
      (evaluateHand cs).type = "straight-flush" →
      compareHands (evaluateHand ct) (evaluateHand cs) = 1) ∧
    compareHands (evaluateHand handTripleThrees) (evaluateHand handSpadeAKQ) = 1 ∧
    (∀ c : List Card, compareHands (evaluateHand c) (evaluateHand c) = 0) := by
  refine ⟨?_, ?_, by decide, fun c => compareHands_self _⟩
  · intro ca cb
    refine ⟨compareHands_eq_one_iff _ _, compareHands_eq_negOne_iff _ _, ?_⟩
    rw [compareHands_eq_zero_iff]
    constructor
    · intro h
      exact ⟨handTypeRank_inj_on_categories (evaluateHand_type_mem ca)
        (evaluateHand_type_mem cb) h.1, h.2⟩
    · intro h
      exact ⟨by rw [h.1], h.2⟩
  · intro ct cs ht hs
    rw [compareHands_eq_one_iff, ht, hs]
    left
    decide

/-- Witness for claim C5: the hypothesis-bearing conjunct applied to the
concrete triple-threes and spade A-K-Q hands. -/
theorem claim_C5_witness :
    (evaluateHand handTripleThrees).type = "three-of-a-kind" ∧
    (evaluateHand handSpadeAKQ).type = "straight-flush" ∧
    compareHands (evaluateHand handTripleThrees) (evaluateHand handSpadeAKQ) = 1 :=
  ⟨by decide, by decide,
    claim_C5.2.1 handTripleThrees handSpadeAKQ (by decide) (by decide)⟩

/-- Claim C3 counterexample: the claim says A-2-3 is the lowest
straight, so that for the straight 2-3-4 compareHands of (2-3-4
evaluated) against (A-2-3 evaluated) would be 1; in the code A-2-3 is
scored with its ace high (value 1400), both hands evaluate as plain
straights, and the comparison yields -1 instead. -/
theorem claim_C3_counterexample :
    (evaluateHand hand234).type = "straight" ∧
    (evaluateHand handA23Off).type = "straight" ∧
    compareHands (evaluateHand hand234) (evaluateHand handA23Off) = -1 := by
  decide

/-- Claim C3 as amended: A-2-3 with mismatched suits evaluates to
category straight (value 1400) and same-suit A-2-3 to straight-flush
(value 14000), but in both cases A-2-3 counts as the HIGHEST straight,
tied with ace-high Q-K-A: over hands of cards with values at most 14,
every straight values at most 1400 and every straight not valued 1400
loses to A-2-3 (and likewise among straight-flushes with 14000). -/
theorem claim_C3_amended :
    (evaluateHand handA23Off).type = "straight" ∧
    (evaluateHand handA23Off).value = 1400 ∧
    (evaluateHand handA23Suited).type = "straight-flush" ∧
    (evaluateHand handA23Suited).value = 14000 ∧
    ∀ cards : List Card, (∀ c ∈ cards, c.value ≤ 14) →
      (((evaluateHand cards).type = "straight" →
        (evaluateHand cards).value ≤ 1400 ∧
        ((evaluateHand cards).value ≠ 1400 →
          compareHands (evaluateHand handA23Off) (evaluateHand cards) = 1)) ∧
      ((evaluateHand cards).type = "straight-flush" →
        (evaluateHand cards).value ≤ 14000 ∧
        ((evaluateHand cards).value ≠ 14000 →
          compareHands (evaluateHand handA23Suited) (evaluateHand cards) = 1))) := by
  refine ⟨by decide, by decide, by decide, by decide, ?_⟩
  intro cards hb
  have hbound := evaluateHand_straight_value_le cards hb
  constructor
  · intro ht
    refine ⟨hbound.1 ht, ?_⟩
    intro hne
    rw [compareHands_eq_one_iff]
    right
    constructor
    · rw [ht]; decide
    · have h1 := hbound.1 ht
      have h2 : (evaluateHand handA23Off).value = 1400 := by decide
      omega
  · intro ht
    refine ⟨hbound.2 ht, ?_⟩
    intro hne
    rw [compareHands_eq_one_iff]
    right
    constructor
    · rw [ht]; decide
    · have h1 := hbound.2 ht
      have h2 : (evaluateHand handA23Suited).value = 14000 := by decide
      omega

/-- Witness for the amended claim C3, at the concrete straight 2-3-4. -/
theorem claim_C3_witness :
    (evaluateHand hand234).type = "straight" ∧
    (evaluateHand hand234).value ≠ 1400 ∧
    compareHands (evaluateHand handA23Off) (evaluateHand hand234) = 1 :=
  ⟨by decide, by decide,
    ((claim_C3_amended.2.2.2.2 hand234 (by decide)).1 (by decide)).2 (by decide)⟩

/-- Claim C1: for a place-bet by a non-folded player whose seat is the
current turn, with declared amount D: the bet is rejected when
D < minBet; otherwise the charge A is D when the player has viewed
their cards and floor(D / 2) when not; the bet is rejected when the
balance is under A; on success the balance drops by A, currentBet and
pot grow by A, the player is marked acted, and minBet ratchets to the
declared D exactly when D exceeds it.  (The room-not-found rejection of
the source is the transport-level lookup outside this room model.) -/
theorem claim_C1 (room : Room) (pid : String) (amount : Int) (i : Nat) (player : Player)
    (hfind : room.players.findIdx? (fun p => p.id == pid) = some i)
    (hget : room.players.get? i = some player)
    (hnf : player.folded = false)
    (hturn : room.currentTurn = (i : Int)) :
    (amount < room.minBet → placeBet room pid amount = none) ∧
    (room.minBet ≤ amount →
      player.money < (if player.viewedCards then amount else amount.fdiv 2) →
      placeBet room pid amount = none) ∧
    (room.minBet ≤ amount →
      (if player.viewedCards then amount else amount.fdiv 2) ≤ player.money →
      ∃ r', placeBet room pid amount = some r' ∧
        r'.players.get? i = some { player with
          money := player.money - (if player.viewedCards then amount else amount.fdiv 2),
          currentBet := player.currentBet + (if player.viewedCards then amount else amount.fdiv 2),
          actedThisRound := true } ∧
        r'.pot = room.pot + (if player.viewedCards then amount else amount.fdiv 2) ∧
        r'.minBet = (if room.minBet < amount then amount else room.minBet)) := by
  have hnturn : ¬ (room.currentTurn ≠ (i : Int)) := by
    rw [hturn]; exact fun h => h rfl
  have hnfold : ¬ (player.folded = true) := by rw [hnf]; exact Bool.false_ne_true
  obtain ⟨hlen, -⟩ := List.get?_eq_some.mp hget
  refine ⟨?_, ?_, ?_⟩
  · intro hlt
    simp only [placeBet, hfind, hget]
    rw [if_neg hnfold, if_neg hnturn, if_pos hlt]
  · intro hge hpoor
    simp only [placeBet, hfind, hget]
    rw [if_neg hnfold, if_neg hnturn, if_neg (not_lt.mpr hge), if_pos hpoor]
  · intro hge hrich
    simp only [placeBet, hfind, hget]
    rw [if_neg hnfold, if_neg hnturn, if_neg (not_lt.mpr hge), if_neg (not_lt.mpr hrich)]
    refine ⟨_, rfl, ?_, ?_, ?_⟩
    · by_cases hmb : amount > room.minBet
      · rw [if_pos hmb]
        exact List.get?_set_eq_of_lt _ hlen
      · rw [if_neg hmb]
        exact List.get?_set_eq_of_lt _ hlen
    · by_cases hmb : amount > room.minBet
      · rw [if_pos hmb]
      · rw [if_neg hmb]
    · by_cases hmb : amount > room.minBet
      · rw [if_pos hmb, if_pos hmb]
      · rw [if_neg hmb, if_neg hmb]

/-- Witness for claim C1: Bob, unviewed, declares 200 on minBet 100 in
the sample room; he is charged 100, his bet and the pot grow by 100,
and minBet ratchets to the declared 200. -/
theorem claim_C1_witness :
    ∃ r', placeBet sampleRoom "b" 200 = some r' ∧
      r'.players.get? 1 = some { bobPlayer with
        money := bobPlayer.money - (if bobPlayer.viewedCards then 200 else (200 : Int).fdiv 2),
        currentBet := bobPlayer.currentBet +
          (if bobPlayer.viewedCards then 200 else (200 : Int).fdiv 2),
        actedThisRound := true } ∧
      r'.pot = sampleRoom.pot + (if bobPlayer.viewedCards then 200 else (200 : Int).fdiv 2) ∧
      r'.minBet = (if sampleRoom.minBet < 200 then 200 else sampleRoom.minBet) :=
  (claim_C1 sampleRoom "b" 200 1 bobPlayer (by decide) (by decide) (by decide)
    (by decide)).2.2 (by decide) (by decide)

/-- Claim C10: the all-in action has no minimum-bet precondition.  For a
non-folded, not-yet-all-in player acting on their turn whose whole
balance is below minBet, all-in is still accepted: the balance moves
into the pot, the player ends all-in with balance 0 and minBet is
unchanged.  Conversely a rejected all-in can only come from a missing
player record, a folded or already all-in player, or acting out of turn
(the missing-room rejection is the transport-level lookup outside this
room model). -/
theorem claim_C10 :
    (∀ (room : Room) (pid : String) (i : Nat) (player : Player),
      room.players.findIdx? (fun p => p.id == pid) = some i →
      room.players.get? i = some player →
      player.folded = false →
      player.allIn = false →
      room.currentTurn = (i : Int) →
      player.money < room.minBet →
      ∃ r', allInMove room pid = some r' ∧
        r'.pot = room.pot + player.money ∧
        r'.players.get? i = some { player with
          money := 0,
          currentBet := player.currentBet + player.money,
          allIn := true, actedThisRound := true } ∧
        r'.minBet = room.minBet) ∧
    (∀ (room : Room) (pid : String), allInMove room pid = none →
      room.players.findIdx? (fun p => p.id == pid) = none ∨
      ∃ i, room.players.findIdx? (fun p => p.id == pid) = some i ∧
        (room.players.get? i = none ∨
        ∃ player, room.players.get? i = some player ∧
          (player.folded = true ∨ player.allIn = true ∨
            room.currentTurn ≠ (i : Int)))) := by
  constructor
  · intro room pid i player hfind hget hnf hna hturn hlow
    have hnturn : ¬ (room.currentTurn ≠ (i : Int)) := by
      rw [hturn]; exact fun h => h rfl
    have hnfold : ¬ (player.folded = true) := by rw [hnf]; exact Bool.false_ne_true
    have hnallin : ¬ (player.allIn = true) := by rw [hna]; exact Bool.false_ne_true
    obtain ⟨hlen, -⟩ := List.get?_eq_some.mp hget
    have hnraise : ¬ (player.money > room.minBet) := by omega
    simp only [allInMove, hfind, hget]
    rw [if_neg hnfold, if_neg hnallin, if_neg hnturn, if_neg hnraise]
    exact ⟨_, rfl, rfl, List.get?_set_eq_of_lt _ hlen, rfl⟩
  · intro room pid hnone
    unfold allInMove at hnone
    cases hfind : room.players.findIdx? (fun p => p.id == pid) with
    | none => exact Or.inl rfl
    | some i =>
      simp only [hfind] at hnone
      refine Or.inr ⟨i, rfl, ?_⟩
      cases hget : room.players.get? i with
      | none => exact Or.inl rfl
      | some player =>
        simp only [hget] at hnone
        refine Or.inr ⟨player, rfl, ?_⟩
        by_cases h1 : player.folded = true
        · exact Or.inl h1
        · rw [if_neg h1] at hnone
          by_cases h2 : player.allIn = true
          · exact Or.inr (Or.inl h2)
          · rw [if_neg h2] at hnone
            by_cases h3 : room.currentTurn ≠ (i : Int)
            · exact Or.inr (Or.inr h3)
            · rw [if_neg h3] at hnone
              exact absurd hnone (by simp)

/-- Writing an entry that agrees with the old one under f leaves the
f-image of the list unchanged. -/
lemma map_set_eq_of_agree {α β : Type} (f : α → β) (l : List α) (i : Nat) (b : α)
    (h : ∀ a, l.get? i = some a → f b = f a) :
    (l.set i b).map f = l.map f := by
  induction l generalizing i with
  | nil => rfl
  | cons x xs ih =>
    cases i with
    | zero =>
      simp only [List.set, List.map_cons]
      rw [h x rfl]
    | succ n =>
      simp only [List.set, List.map_cons]
      rw [ih n (fun a ha => h a ha)]

/-- Claim C7: compare-cards is rejected, leaving the state unchanged
(none), whenever the betting round is below 2, either party is folded,
it is not the turn of the challenger, or the challenger has not
accumulated the required stake (minBet when viewed, floor(minBet / 2)
when not); when accepted, the party whose evaluated hand compares lower
is folded, a draw folds neither player, and neither any balance nor the
pot changes. -/
theorem claim_C7 (room : Room) (pid tid : String) (i j : Nat)
    (player opponent : Player)
    (hfi : room.players.findIdx? (fun p => p.id == pid) = some i)
    (hfj : room.players.findIdx? (fun p => p.id == tid) = some j)
    (hgi : room.players.get? i = some player)
    (hgj : room.players.get? j = some opponent) :
    ((room.currentRound < 2 ∨ player.folded = true ∨ opponent.folded = true ∨
        room.currentTurn ≠ (i : Int) ∨
        player.currentBet <
          (if player.viewedCards then room.minBet else room.minBet.fdiv 2)) →
      compareCards room pid tid = none) ∧
    (2 ≤ room.currentRound → player.folded = false → opponent.folded = false →
      room.currentTurn = (i : Int) →
      (if player.viewedCards then room.minBet else room.minBet.fdiv 2) ≤
        player.currentBet →
      ∃ r', compareCards room pid tid = some r' ∧
        r'.pot = room.pot ∧
        r'.players.map (fun p => p.money) = room.players.map (fun p => p.money) ∧
        (compareHands (evaluateHand player.hand) (evaluateHand opponent.hand) = 0 →
          r'.players.map (fun p => p.folded) = room.players.map (fun p => p.folded)) ∧
        (0 < compareHands (evaluateHand player.hand) (evaluateHand opponent.hand) →
          r'.players.get? j = some { opponent with folded := true }) ∧
        (compareHands (evaluateHand player.hand) (evaluateHand opponent.hand) < 0 →
          r'.players.get? i =
            some { player with folded := true, actedThisRound := true })) := by
  constructor
  · intro hrej
    simp only [compareCards, hfi, hfj, hgi, hgj]
    by_cases h1 : (player.folded || opponent.folded) = true
    · rw [if_pos h1]
    · rw [if_neg h1]
      by_cases h2 : room.currentRound < 2
      · rw [if_pos h2]
      · rw [if_neg h2]
        by_cases h3 : room.currentTurn ≠ (i : Int)
        · rw [if_pos h3]
        · rw [if_neg h3]
          have h4 : player.currentBet <
              (if player.viewedCards then room.minBet else room.minBet.fdiv 2) := by
            simp only [Bool.or_eq_true, not_or] at h1
            rcases hrej with h | h | h | h | h
            · exact absurd h h2
            · exact absurd h h1.1
            · exact absurd h h1.2
            · exact absurd h h3
            · exact h
          rw [if_pos h4]
  · intro hr2 hpf hof hturn hbet
    have hnfold : ¬ ((player.folded || opponent.folded) = true) := by
      simp [hpf, hof]
    have hnturn : ¬ (room.currentTurn ≠ (i : Int)) := fun h => h hturn
    obtain ⟨hleni, -⟩ := List.get?_eq_some.mp hgi
    obtain ⟨hlenj, -⟩ := List.get?_eq_some.mp hgj
    simp only [compareCards, hfi, hfj, hgi, hgj]
    rw [if_neg hnfold, if_neg (not_lt.mpr hr2), if_neg hnturn, if_neg (not_lt.mpr hbet)]
    rcases lt_trichotomy
      (compareHands (evaluateHand player.hand) (evaluateHand opponent.hand)) 0 with
      hres | hres | hres
    · rw [if_neg (by omega : ¬ compareHands (evaluateHand player.hand)
          (evaluateHand opponent.hand) > 0), if_pos hres,
        List.get?_set_eq_of_lt _ hleni]
      dsimp only
      refine ⟨_, rfl, rfl, ?_, ?_, ?_, ?_⟩
      · show ((room.players.set i { player with folded := true }).set i
          { player with folded := true, actedThisRound := true }).map
            (fun p => p.money) = room.players.map (fun p => p.money)
        rw [map_set_eq_of_agree, map_set_eq_of_agree]
        · intro a ha; rw [hgi] at ha; cases ha; rfl
        · intro a ha
          rw [List.get?_set_eq_of_lt _ hleni] at ha
          cases ha; rfl
      · intro h0; omega
      · intro h0; omega
      · intro h0
        rw [List.set_set]
        exact List.get?_set_eq_of_lt _ hleni
    · rw [if_neg (by omega : ¬ compareHands (evaluateHand player.hand)
          (evaluateHand opponent.hand) > 0),
        if_neg (by omega : ¬ compareHands (evaluateHand player.hand)
          (evaluateHand opponent.hand) < 0), hgi]
      dsimp only
      refine ⟨_, rfl, rfl, ?_, ?_, ?_, ?_⟩
      · show (room.players.set i { player with actedThisRound := true }).map
          (fun p => p.money) = room.players.map (fun p => p.money)
        rw [map_set_eq_of_agree]
        intro a ha; rw [hgi] at ha; cases ha; rfl
      · intro h0
        show (room.players.set i { player with actedThisRound := true }).map
          (fun p => p.folded) = room.players.map (fun p => p.folded)
        rw [map_set_eq_of_agree]
        intro a ha; rw [hgi] at ha; cases ha; rfl
      · intro h0; omega
      · intro h0; omega
    · have hij : i ≠ j := by
        intro hEq
        subst hEq
        rw [hgi] at hgj
        cases hgj
        rw [compareHands_self] at hres
        omega
      rw [if_pos hres, List.get?_set_ne _ _ (fun h => hij h.symm), hgi]
      dsimp only
      refine ⟨_, rfl, rfl, ?_, ?_, ?_, ?_⟩
      · show (((room.players.set j { opponent with folded := true }).set i
          { player with actedThisRound := true })).map
            (fun p => p.money) = room.players.map (fun p => p.money)
        rw [map_set_eq_of_agree, map_set_eq_of_agree]
        · intro a ha; rw [hgj] at ha; cases ha; rfl
        · intro a ha
          rw [List.get?_set_ne _ _ hij.symm, hgi] at ha
          cases ha; rfl
      · intro h0; omega
      · intro h0
        rw [List.get?_set_ne _ _ hij, List.get?_set_eq_of_lt _ hlenj]
      · intro h0; omega

/-- Witness for claim C7: in the round-2 sample room, Bob (straight
2-3-4) challenges Alice (triple threes) and loses the duel: Bob is
folded, Alice is not, and no money moves. -/
theorem claim_C7_witness :
    ∃ r' : Room, compareCards duelRoom "b" "a" = some r' ∧
      r'.pot = duelRoom.pot ∧
      r'.players.map (fun p => p.money) = duelRoom.players.map (fun p => p.money) ∧
      (compareHands (evaluateHand bobPlayer.hand) (evaluateHand alicePlayer.hand) = 0 →
        r'.players.map (fun p => p.folded) = duelRoom.players.map (fun p => p.folded)) ∧
      (0 < compareHands (evaluateHand bobPlayer.hand) (evaluateHand alicePlayer.hand) →
        r'.players.get? 0 = some { alicePlayer with folded := true }) ∧
      (compareHands (evaluateHand bobPlayer.hand) (evaluateHand alicePlayer.hand) < 0 →
        r'.players.get? 1 =
          some { bobPlayer with folded := true, actedThisRound := true }) :=
  (claim_C7 duelRoom "b" "a" 1 0 bobPlayer alicePlayer
    (by decide) (by decide) (by decide) (by decide)).2
    (by decide) (by decide) (by decide) (by decide) (by decide)

/-- Witness for claim C10: short-stacked Bob (60 on the table minimum
100) goes all-in in the concrete room and is accepted. -/
theorem claim_C10_witness :
    poorBobPlayer.money < shortStackRoom.minBet ∧
    ∃ r', allInMove shortStackRoom "b" = some r' ∧
      r'.pot = shortStackRoom.pot + poorBobPlayer.money ∧
      r'.players.get? 1 = some { poorBobPlayer with
        money := 0,
        currentBet := poorBobPlayer.currentBet + poorBobPlayer.money,
        allIn := true, actedThisRound := true } ∧
      r'.minBet = shortStackRoom.minBet :=
  ⟨by decide, claim_C10.1 shortStackRoom "b" 1 poorBobPlayer (by decide) (by decide)
    (by decide) (by decide) (by decide) (by decide)⟩

/-- Claim C9 describes the intended guard and the code omits it: in
staleTimerRoom the tournament-end condition already holds (the roster
has a single solvent member), yet the scheduled next-hand callback
(nextHandTimerFire, the setTimeout body of afterHandEnded) starts a new
hand unconditionally: the hand counter advances, the round counter
resets to 1 and fresh antes are collected into a new pot.  No re-check
of the end condition happens at fire time. -/
theorem claim_C9_code_bug :
    tournamentEndCondition staleTimerRoom = true ∧
    (nextHandTimerFire staleTimerRoom createDeck).handsPlayed =
      staleTimerRoom.handsPlayed + 1 ∧
    (nextHandTimerFire staleTimerRoom createDeck).currentRound = 1 ∧
    (nextHandTimerFire staleTimerRoom createDeck).pot = 200 := by
  decide

/-- Claim C8 counterexample: in capRoom the tournament ends through the
hand cap while two solvent players remain on the pruned roster; the
declared champion is merely the first roster member (Alice) although
Bob also survives, so the champion is not the sole survivor of the
roster and the roster is not empty. -/
theorem claim_C8_counterexample :
    (afterHandEnded capRoom).2.ended = true ∧
    (afterHandEnded capRoom).1.tournamentPlayers.length = 2 ∧
    (afterHandEnded capRoom).2.winner = some alicePlayer ∧
    bobPlayer ∈ (afterHandEnded capRoom).1.tournamentPlayers ∧
    0 < bobPlayer.money ∧ bobPlayer ≠ alicePlayer := by
  decide

/-- Claim C8 as amended: after each hand the roster is pruned to its
solvent members; the tournament ends exactly when the pruned roster has
at most one member or the hand counter has reached the starting player
count; on ending the phase becomes ended, the final ranking is a
permutation of the seated players sorted by descending money, and the
champion is the FIRST member of the pruned roster (none when it is
empty; the sole survivor only when exactly one member remains — the end
can also fire through the hand cap with several survivors); otherwise
the room is left unchanged apart from the pruning and the next hand is
scheduled (the deferred start is nextHandTimerFire). -/
theorem claim_C8_amended (room : Room) :
    (afterHandEnded room).1.tournamentPlayers =
      room.tournamentPlayers.filter (fun tp => tp.money > 0) ∧
    ((afterHandEnded room).2.ended = true ↔
      ((room.tournamentPlayers.filter (fun tp => tp.money > 0)).length ≤ 1 ∨
        room.startingPlayerCount ≤ room.handsPlayed)) ∧
    ((afterHandEnded room).2.ended = true →
      (afterHandEnded room).1.gameState = "ended" ∧
      (afterHandEnded room).2.winner =
        (room.tournamentPlayers.filter (fun tp => tp.money > 0)).head? ∧
      List.Perm (afterHandEnded room).2.rankings room.players ∧
      List.Pairwise (fun a b => b.money ≤ a.money) (afterHandEnded room).2.rankings) ∧
    ((afterHandEnded room).2.ended = false →
      (afterHandEnded room) =
        ({ room with tournamentPlayers :=
            room.tournamentPlayers.filter (fun tp => tp.money > 0) },
         { ended := false, winner := none, rankings := [] })) := by
  have htot : ∀ a b : Player, (b.money - a.money : Int) ≤ 0 ∨ (a.money - b.money : Int) ≤ 0 := by
    intro a b; omega
  have htr : ∀ a b c : Player, (b.money - a.money : Int) ≤ 0 →
      (c.money - b.money : Int) ≤ 0 → (c.money - a.money : Int) ≤ 0 := by
    intro a b c h1 h2; omega
  unfold afterHandEnded
  by_cases hE : ((room.tournamentPlayers.filter (fun tp => tp.money > 0)).length ≤ 1 ||
      room.handsPlayed ≥ room.startingPlayerCount) = true
  · rw [if_pos hE]
    have hp : (room.tournamentPlayers.filter (fun tp => tp.money > 0)).length ≤ 1 ∨
        room.startingPlayerCount ≤ room.handsPlayed := by
      simpa [Bool.or_eq_true, decide_eq_true_eq] using hE
    refine ⟨rfl, ⟨fun _ => hp, fun _ => rfl⟩, ?_, ?_⟩
    · intro hEnd
      refine ⟨rfl, rfl, sortByCmp_perm _ _, ?_⟩
      exact (sortByCmp_pairwise htot htr room.players).imp (fun h => by omega)
    · intro hEnd
      exact absurd hEnd (by simp)
  · rw [if_neg hE]
    have hp : ¬ ((room.tournamentPlayers.filter (fun tp => tp.money > 0)).length ≤ 1 ∨
        room.startingPlayerCount ≤ room.handsPlayed) := by
      simpa [Bool.or_eq_true, decide_eq_true_eq] using hE
    refine ⟨rfl, ⟨fun h => absurd h (by simp), fun h => absurd h hp⟩, ?_, fun _ => rfl⟩
    intro hEnd
    exact absurd hEnd (by simp)

/-- Witness for the amended claim C8: the ending branch of the theorem
applied to the concrete hand-cap room. -/
theorem claim_C8_witness :
    (afterHandEnded capRoom).1.gameState = "ended" ∧
    (afterHandEnded capRoom).2.winner =
      (capRoom.tournamentPlayers.filter (fun tp => tp.money > 0)).head? ∧
    List.Perm (afterHandEnded capRoom).2.rankings capRoom.players ∧
    List.Pairwise (fun a b => b.money ≤ a.money) (afterHandEnded capRoom).2.rankings :=
  (claim_C8_amended capRoom).2.2.1 (by decide)

/-! ### Lemmas about startNewHand -/

lemma dealCards_length (n : Nat) :
    ∀ (deck hand : List Card), n ≤ deck.length →
      (dealCards n deck hand).1.length = hand.length + n ∧
      (dealCards n deck hand).2.length = deck.length - n := by
  induction n with
  | zero => intro deck hand h; simp [dealCards]
  | succ m ih =>
    intro deck hand h
    cases hd : deck.getLast? with
    | none =>
      rw [List.getLast?_eq_none_iff] at hd
      subst hd
      simp at h
    | some c =>
      unfold dealCards
      rw [hd]
      have hlen : deck.dropLast.length = deck.length - 1 := List.length_dropLast deck
      have hm : m ≤ deck.dropLast.length := by omega
      have := ih deck.dropLast (hand ++ [c]) hm
      constructor
      · rw [this.1]
        simp only [List.length_append, List.length_singleton]
        omega
      · rw [this.2]
        omega

lemma anteAndDeal_solvent (pot0 : Int) (deck0 : List Card) (done0 : List Player)
    (p : Player) (hm : p.money > 0) :
    anteAndDeal (pot0, deck0, done0) p =
      (pot0 + min 100 p.money, (dealCards 3 deck0 []).2, done0 ++ [anteSolvent deck0 p]) := by
  unfold anteAndDeal anteSolvent
  dsimp only
  rw [if_pos hm]

lemma anteAndDeal_broke (pot0 : Int) (deck0 : List Card) (done0 : List Player)
    (p : Player) (hm : ¬ p.money > 0) :
    anteAndDeal (pot0, deck0, done0) p = (pot0, deck0, done0 ++ [anteBroke p]) := by
  unfold anteAndDeal anteBroke
  dsimp only
  rw [if_neg hm]

lemma foldl_anteAndDeal_append :
    ∀ (ps : List Player) (pot0 : Int) (deck0 : List Card) (done0 : List Player),
      ∃ tail, (ps.foldl anteAndDeal (pot0, deck0, done0)).2.2 = done0 ++ tail := by
  intro ps
  induction ps with
  | nil => intro pot0 deck0 done0; exact ⟨[], by simp⟩
  | cons p rest ih =>
    intro pot0 deck0 done0
    rw [List.foldl_cons]
    by_cases hm : p.money > 0
    · rw [anteAndDeal_solvent pot0 deck0 done0 p hm]
      obtain ⟨tail, htail⟩ := ih (pot0 + min 100 p.money) (dealCards 3 deck0 []).2
        (done0 ++ [anteSolvent deck0 p])
      exact ⟨[anteSolvent deck0 p] ++ tail, by rw [htail, List.append_assoc]⟩
    · rw [anteAndDeal_broke pot0 deck0 done0 p hm]
      obtain ⟨tail, htail⟩ := ih pot0 deck0 (done0 ++ [anteBroke p])
      exact ⟨[anteBroke p] ++ tail, by rw [htail, List.append_assoc]⟩

lemma foldl_anteAndDeal_spec :
    ∀ (ps : List Player) (pot0 : Int) (deck0 : List Card) (done0 : List Player),
      3 * (ps.filter (fun p => p.money > 0)).length ≤ deck0.length →
      (ps.foldl anteAndDeal (pot0, deck0, done0)).1 =
          pot0 + ((ps.filter (fun p => p.money > 0)).map (fun p => min 100 p.money)).sum ∧
      (ps.foldl anteAndDeal (pot0, deck0, done0)).2.2.length = done0.length + ps.length ∧
      (∀ k, k < ps.length →
        ∃ p q, ps.get? k = some p ∧
          (ps.foldl anteAndDeal (pot0, deck0, done0)).2.2.get? (done0.length + k) = some q ∧
          q.id = p.id ∧ q.name = p.name ∧ q.viewedCards = false ∧ q.allIn = false ∧
          q.actedThisRound = false ∧
          (0 < p.money →
            q.folded = false ∧ q.money = p.money - min 100 p.money ∧
            q.currentBet = min 100 p.money ∧ q.hand.length = 3) ∧
          (p.money ≤ 0 →
            q.folded = true ∧ q.money = p.money ∧ q.currentBet = 0 ∧ q.hand = [])) := by
  intro ps
  induction ps with
  | nil =>
    intro pot0 deck0 done0 hdeck
    refine ⟨by simp, by simp, ?_⟩
    intro k hk
    exact absurd hk (by simp)
  | cons p rest ih =>
    intro pot0 deck0 done0 hdeck
    rw [List.foldl_cons]
    by_cases hm : p.money > 0
    · have hfc : (p :: rest).filter (fun p => p.money > 0) =
          p :: rest.filter (fun p => p.money > 0) := by
        simp [List.filter_cons, hm]
      rw [hfc] at hdeck
      simp only [List.length_cons] at hdeck
      have hdeck3 : 3 ≤ deck0.length := by omega
      have hdeal := dealCards_length 3 deck0 [] hdeck3
      rw [anteAndDeal_solvent pot0 deck0 done0 p hm]
      have hrest : 3 * (rest.filter (fun p => p.money > 0)).length ≤
          (dealCards 3 deck0 []).2.length := by
        rw [hdeal.2]; omega
      have IH := ih (pot0 + min 100 p.money) (dealCards 3 deck0 []).2
        (done0 ++ [anteSolvent deck0 p]) hrest
      refine ⟨?_, ?_, ?_⟩
      · rw [IH.1, hfc]
        simp only [List.map_cons, List.sum_cons]
        omega
      · rw [IH.2.1]
        have hx : (done0 ++ [anteSolvent deck0 p]).length = done0.length + 1 := by
          rw [List.length_append]
          rfl
        rw [hx]
        simp only [List.length_cons]
        omega
      · intro k hk
        cases k with
        | zero =>
          obtain ⟨tail, htail⟩ := foldl_anteAndDeal_append rest
            (pot0 + min 100 p.money) (dealCards 3 deck0 []).2
            (done0 ++ [anteSolvent deck0 p])
          refine ⟨p, anteSolvent deck0 p, rfl, ?_, rfl, rfl, rfl, rfl, rfl, ?_, ?_⟩
          · rw [htail, List.append_assoc,
              List.get?_append_right (by omega : done0.length ≤ done0.length + 0)]
            simp
          · intro h0
            refine ⟨rfl, rfl, rfl, ?_⟩
            show (dealCards 3 deck0 []).1.length = 3
            rw [hdeal.1]
            rfl
          · intro h0
            exact absurd h0 (by omega)
        | succ k2 =>
          have hk2 : k2 < rest.length := by
            simp only [List.length_cons] at hk; omega
          obtain ⟨p2, q2, hp2, hq2, hrest2⟩ := IH.2.2 k2 hk2
          refine ⟨p2, q2, by simpa using hp2, ?_, hrest2⟩
          have harith : (done0 ++ [anteSolvent deck0 p]).length + k2 =
              done0.length + (k2 + 1) := by
            simp only [List.length_append, List.length_singleton]
            omega
          rw [harith] at hq2
          exact hq2
    · have hfc : (p :: rest).filter (fun p => p.money > 0) =
          rest.filter (fun p => p.money > 0) := by
        simp [List.filter_cons, hm]
      rw [hfc] at hdeck
      rw [anteAndDeal_broke pot0 deck0 done0 p hm]
      have IH := ih pot0 deck0 (done0 ++ [anteBroke p]) hdeck
      refine ⟨?_, ?_, ?_⟩
      · rw [IH.1, hfc]
      · rw [IH.2.1]
        have hx : (done0 ++ [anteBroke p]).length = done0.length + 1 := by
          rw [List.length_append]
          rfl
        rw [hx]
        simp only [List.length_cons]
        omega
      · intro k hk
        cases k with
        | zero =>
          obtain ⟨tail, htail⟩ := foldl_anteAndDeal_append rest pot0 deck0
            (done0 ++ [anteBroke p])
          refine ⟨p, anteBroke p, rfl, ?_, rfl, rfl, rfl, rfl, rfl, ?_, ?_⟩
          · rw [htail, List.append_assoc,
              List.get?_append_right (by omega : done0.length ≤ done0.length + 0)]
            simp
          · intro h0
            exact absurd h0 (by omega)
          · intro h0
            exact ⟨rfl, rfl, rfl, rfl⟩
        | succ k2 =>
          have hk2 : k2 < rest.length := by
            simp only [List.length_cons] at hk; omega
          obtain ⟨p2, q2, hp2, hq2, hrest2⟩ := IH.2.2 k2 hk2
          refine ⟨p2, q2, by simpa using hp2, ?_, hrest2⟩
          have harith : (done0 ++ [anteBroke p]).length + k2 =
              done0.length + (k2 + 1) := by
            simp only [List.length_append, List.length_singleton]
            omega
          rw [harith] at hq2
          exact hq2

/-- Claim C6: after startNewHand the pot is the sum over players with
positive pre-hand balance of min(100, balance); every such solvent
player holds exactly 3 cards, has the per-hand flags cleared, currentBet
equal to the charged ante and balance reduced by it; every player
without positive pre-hand balance is folded with an empty hand,
unchanged balance and zero currentBet; the dealer index advances by
exactly one modulo the seat count; minBet is 100 and the round counter
is 1 (and the hand counter advances).  The deck parameter stands for
the freshly shuffled 52-card deck of the source; the hypothesis only
asks that it holds three cards for every solvent player. -/
theorem claim_C6 (room : Room) (newDeck : List Card)
    (hne : room.players ≠ [])
    (hdeck : 3 * (room.players.filter (fun p => p.money > 0)).length ≤ newDeck.length) :
    (startNewHand room newDeck).pot =
      ((room.players.filter (fun p => p.money > 0)).map (fun p => min 100 p.money)).sum ∧
    (startNewHand room newDeck).players.length = room.players.length ∧
    (startNewHand room newDeck).minBet = 100 ∧
    (startNewHand room newDeck).currentRound = 1 ∧
    (startNewHand room newDeck).dealerIndex =
      (room.dealerIndex + 1) % (room.players.length : Int) ∧
    (startNewHand room newDeck).handsPlayed = room.handsPlayed + 1 ∧
    (∀ k, k < room.players.length →
      ∃ p q, room.players.get? k = some p ∧
        (startNewHand room newDeck).players.get? k = some q ∧
        (0 < p.money →
          q.hand.length = 3 ∧ q.viewedCards = false ∧ q.folded = false ∧
          q.allIn = false ∧ q.actedThisRound = false ∧
          q.currentBet = min 100 p.money ∧ q.money = p.money - min 100 p.money) ∧
        (p.money ≤ 0 →
          q.folded = true ∧ q.hand = [] ∧ q.money = p.money ∧ q.currentBet = 0)) := by
  have S := foldl_anteAndDeal_spec room.players 0 newDeck [] hdeck
  have hlen : (room.players.foldl anteAndDeal (0, newDeck, [])).2.2.length =
      room.players.length := by
    rw [S.2.1]; simp
  refine ⟨?_, hlen, rfl, rfl, ?_, rfl, ?_⟩
  · show (room.players.foldl anteAndDeal (0, newDeck, [])).1 =
      ((room.players.filter (fun p => p.money > 0)).map (fun p => min 100 p.money)).sum
    rw [S.1]
    omega
  · show (room.dealerIndex + 1) %
        (((room.players.foldl anteAndDeal (0, newDeck, [])).2.2.length : Int)) =
      (room.dealerIndex + 1) % (room.players.length : Int)
    rw [hlen]
  · intro k hk
    obtain ⟨p, q, hp, hq, hid, hname, hviewed, hallin, hacted, hsol, hbroke⟩ :=
      S.2.2 k hk
    have hidx : ([] : List Player).length + k = k := by simp
    rw [hidx] at hq
    refine ⟨p, q, hp, hq, ?_, ?_⟩
    · intro h0
      exact ⟨(hsol h0).2.2.2, hviewed, (hsol h0).1, hallin, hacted,
        (hsol h0).2.2.1, (hsol h0).2.1⟩
    · intro h0
      exact ⟨(hbroke h0).1, (hbroke h0).2.2.2, (hbroke h0).2.1, (hbroke h0).2.2.1⟩

/-- Witness for claim C6: starting a hand in the sample room with the
fresh deck collects 100 from each of the two solvent players, resets
the table minimum and round, and rotates the dealer. -/
theorem claim_C6_witness :
    sampleRoom.players ≠ [] ∧
    (startNewHand sampleRoom createDeck).pot =
      ((sampleRoom.players.filter (fun p => p.money > 0)).map
        (fun p => min 100 p.money)).sum ∧
    (startNewHand sampleRoom createDeck).minBet = 100 ∧
    (startNewHand sampleRoom createDeck).currentRound = 1 ∧
    (startNewHand sampleRoom createDeck).dealerIndex =
      (sampleRoom.dealerIndex + 1) % (sampleRoom.players.length : Int) :=
  ⟨by decide,
   (claim_C6 sampleRoom createDeck (by decide) (by decide)).1,
   (claim_C6 sampleRoom createDeck (by decide) (by decide)).2.2.1,
   (claim_C6 sampleRoom createDeck (by decide) (by decide)).2.2.2.1,
   (claim_C6 sampleRoom createDeck (by decide) (by decide)).2.2.2.2.1⟩

/-! ### Lemmas about resolveHand -/

lemma compareHands_cases (a b : HandEval) :
    compareHands a b = 1 ∨ compareHands a b = 0 ∨ compareHands a b = -1 := by
  unfold compareHands
  split_ifs <;> simp

lemma hCmp_total (a b : Player × HandEval) :
    compareHands b.2 a.2 ≤ 0 ∨ compareHands a.2 b.2 ≤ 0 :=
  (compareHands_total b.2 a.2).imp id id

lemma hCmp_trans (a b c : Player × HandEval)
    (h1 : compareHands b.2 a.2 ≤ 0) (h2 : compareHands c.2 b.2 ≤ 0) :
    compareHands c.2 a.2 ≤ 0 :=
  compareHands_trans_le h2 h1

lemma hCmp_refl (a : Player × HandEval) : compareHands a.2 a.2 ≤ 0 := by
  rw [compareHands_self]

/-- The head of the best-first sort used by resolveHand carries exactly
the tie-break value of any compareHands-maximal element of the active
list. -/
lemma sorted_bestScore (active : List Player) (best : Player)
    (hne : active ≠ []) (hb : best ∈ active)
    (hbest : ∀ a ∈ active,
      compareHands (evaluateHand a.hand) (evaluateHand best.hand) ≠ 1) :
    ((sortByCmp (fun a b => compareHands b.2 a.2)
        (active.map (fun p => (p, evaluateHand p.hand)))).head?).map
      (fun e => e.2.value) = some (evaluateHand best.hand).value := by
  have hperm := sortByCmp_perm (fun a b => compareHands b.2 a.2)
    (active.map (fun p => (p, evaluateHand p.hand)))
  have hsne : sortByCmp (fun a b => compareHands b.2 a.2)
      (active.map (fun p => (p, evaluateHand p.hand))) ≠ [] := by
    intro h
    have hlen := hperm.length_eq
    rw [h] at hlen
    simp only [List.length_nil, List.length_map] at hlen
    exact hne (List.length_eq_zero.mp hlen.symm)
  cases hh : (sortByCmp (fun a b => compareHands b.2 a.2)
      (active.map (fun p => (p, evaluateHand p.hand)))).head? with
  | none => exact absurd (List.head?_eq_none_iff.mp hh) hsne
  | some h =>
    have hmem : h ∈ sortByCmp (fun a b => compareHands b.2 a.2)
        (active.map (fun p => (p, evaluateHand p.hand))) :=
      List.mem_of_mem_head? hh
    have hmem2 : h ∈ active.map (fun p => (p, evaluateHand p.hand)) :=
      hperm.mem_iff.mp hmem
    obtain ⟨q, hq, hqe⟩ := List.mem_map.mp hmem2
    have hh2 : h.2 = evaluateHand q.hand := by rw [← hqe]
    have hle1 : compareHands h.2 (evaluateHand best.hand) ≤ 0 := by
      rw [hh2]
      have hq1 := hbest q hq
      rcases compareHands_cases (evaluateHand q.hand) (evaluateHand best.hand) with
        hc | hc | hc
      · exact absurd hc hq1
      · omega
      · omega
    have hle2 : compareHands (evaluateHand best.hand) h.2 ≤ 0 := by
      have hbp : (best, evaluateHand best.hand) ∈
          active.map (fun p => (p, evaluateHand p.hand)) :=
        List.mem_map.mpr ⟨best, hb, rfl⟩
      exact sortByCmp_head_min hCmp_total hCmp_trans hCmp_refl hh hbp
    have hv : h.2.value = (evaluateHand best.hand).value := by
      rw [compareHands_le_zero_iff] at hle1 hle2
      omega
    simp [hv]

/-- Membership in the winner list computed by resolveHand, phrased over
the active list and the winning tie-break value. -/
lemma code_winners_iff (active : List Player) (v : Nat) (w : Player) :
    w ∈ ((sortByCmp (fun a b => compareHands b.2 a.2)
        (active.map (fun p => (p, evaluateHand p.hand)))).filter
          (fun e => e.2.value = v)).map (fun e => e.1) ↔
      w ∈ active ∧ (evaluateHand w.hand).value = v := by
  have hperm := (sortByCmp_perm (fun a b => compareHands b.2 a.2)
    (active.map (fun p => (p, evaluateHand p.hand)))).filter
      (fun e => e.2.value = v)
  constructor
  · intro hw
    obtain ⟨e, he, hew⟩ := List.mem_map.mp hw
    have he2 := hperm.mem_iff.mp he
    rw [List.mem_filter] at he2
    obtain ⟨q, hq, hqe⟩ := List.mem_map.mp he2.1
    have hv := he2.2
    rw [← hqe] at hew hv
    simp only [decide_eq_true_eq] at hv
    subst hew
    exact ⟨hq, hv⟩
  · intro ⟨hw, hv⟩
    refine List.mem_map.mpr ⟨(w, evaluateHand w.hand), ?_, rfl⟩
    rw [hperm.mem_iff, List.mem_filter]
    exact ⟨List.mem_map.mpr ⟨w, hw, rfl⟩, by simpa using hv⟩

/-- The winner list computed by resolveHand has the same length as the
value-filtered active list. -/
lemma code_winners_length (active : List Player) (v : Nat) :
    (((sortByCmp (fun a b => compareHands b.2 a.2)
        (active.map (fun p => (p, evaluateHand p.hand)))).filter
          (fun e => e.2.value = v)).map (fun e => e.1)).length =
      (active.filter (fun a => (evaluateHand a.hand).value = v)).length := by
  rw [List.length_map]
  rw [((sortByCmp_perm (fun a b => compareHands b.2 a.2)
    (active.map (fun p => (p, evaluateHand p.hand)))).filter
      (fun e => e.2.value = v)).length_eq]
  rw [List.filter_map, List.length_map]
  simp [Function.comp_def]

/-- Claim C2 counterexample: in cexRoomC2 the best hand under
compareHands is the triple fives (the straight compares -1 against it,
not 0), so under the claim Alice alone would win the whole pot of 100
and Bob would be unchanged; the code instead filters winners by the
numeric value alone (both hands value 500) and credits each pot/2 = 50. -/
theorem claim_C2_counterexample :
    compareHands (evaluateHand bobStraight.hand) (evaluateHand aliceTrips.hand) = -1 ∧
    (resolveHand cexRoomC2).1.players.get? 0 = some { aliceTrips with money := 1050 } ∧
    (resolveHand cexRoomC2).1.players.get? 1 = some { bobStraight with money := 1050 } := by
  decide

/-- Claim C2 as amended: resolveHand acts on the non-folded players with
money > 0.  With none of them there is no winner and no balance
changes; with exactly one, that player takes the whole pot; with two or
more, the winners are exactly the active players whose evaluated hand
VALUE equals the value of the compareHands-best hand (the numeric
tie-break value alone — hands of different categories sharing the value
also win), each winner gains floor(pot / N) for N winners (floor(pot/1)
being the whole pot), and every other balance is unchanged.  Player ids
are assumed distinct, as socket ids are. -/
theorem claim_C2_amended (room : Room)
    (hnd : (room.players.map (fun p => p.id)).Nodup) :
    ((room.players.filter (fun p => !p.folded && p.money > 0)) = [] →
      (resolveHand room).2.winner = none ∧
      (resolveHand room).1.players = room.players) ∧
    (∀ w, (room.players.filter (fun p => !p.folded && p.money > 0)) = [w] →
      ∀ k p, room.players.get? k = some p →
        ∃ q, (resolveHand room).1.players.get? k = some q ∧
          q.money = p.money + (if p.id = w.id then room.pot else 0)) ∧
    (∀ best, best ∈ (room.players.filter (fun p => !p.folded && p.money > 0)) →
      2 ≤ (room.players.filter (fun p => !p.folded && p.money > 0)).length →
      (∀ a, a ∈ (room.players.filter (fun p => !p.folded && p.money > 0)) →
        compareHands (evaluateHand a.hand) (evaluateHand best.hand) ≠ 1) →
      ∀ k p, room.players.get? k = some p →
        ∃ q, (resolveHand room).1.players.get? k = some q ∧
          q.money = p.money +
            (if p ∈ (room.players.filter (fun p => !p.folded && p.money > 0)).filter
                  (fun a => (evaluateHand a.hand).value = (evaluateHand best.hand).value)
              then room.pot.fdiv
                (((room.players.filter (fun p => !p.folded && p.money > 0)).filter
                  (fun a => (evaluateHand a.hand).value =
                    (evaluateHand best.hand).value)).length : Int)
              else 0)) := by
  refine ⟨?_, ?_, ?_⟩
  · intro hA
    have hlen : (room.players.filter (fun p => !p.folded && p.money > 0)).length = 0 := by
      rw [hA]; rfl
    simp only [resolveHand]
    rw [if_pos hlen]
    exact ⟨rfl, rfl⟩
  · intro w hA k p hget
    have hlen0 : ¬ (room.players.filter (fun p => !p.folded && p.money > 0)).length = 0 := by
      rw [hA]; simp
    have hlen1 : (room.players.filter (fun p => !p.folded && p.money > 0)).length = 1 := by
      rw [hA]; rfl
    simp only [resolveHand]
    rw [if_neg hlen0, if_pos hlen1, hA]
    rw [if_neg (by simp : ¬ ([w].length > 1))]
    rw [List.get?_map, hget]
    refine ⟨_, rfl, ?_⟩
    dsimp only
    by_cases hc : p.id = w.id
    · have hcont : (([w].map (fun w => w.id)).contains p.id) = true := by
        simp [hc]
      rw [if_pos hcont]
      simp [hc]
    · have hcont : (([w].map (fun w => w.id)).contains p.id) = false := by
        simp [hc]
      rw [if_neg (by rw [hcont]; exact Bool.false_ne_true)]
      simp [hc]
  · intro best hbmem h2 hbest k p hget
    have hAne : (room.players.filter (fun p => !p.folded && p.money > 0)) ≠ [] := by
      intro h
      rw [h] at h2
      simp at h2
    have hlen0 : ¬ (room.players.filter (fun p => !p.folded && p.money > 0)).length = 0 := by
      omega
    have hlen1 : ¬ (room.players.filter (fun p => !p.folded && p.money > 0)).length = 1 := by
      omega
    have hBS := sorted_bestScore (room.players.filter (fun p => !p.folded && p.money > 0))
      best hAne hbmem hbest
    simp only [resolveHand]
    rw [if_neg hlen0, if_neg hlen1, hBS, Option.getD_some]
    rw [List.get?_map, hget]
    refine ⟨_, rfl, ?_⟩
    dsimp only
    have hpmem : p ∈ room.players := List.get?_mem hget
    by_cases hw : p ∈ (room.players.filter (fun p => !p.folded && p.money > 0)).filter
        (fun a => (evaluateHand a.hand).value = (evaluateHand best.hand).value)
    · have hzw := List.mem_filter.mp hw
      have hpcw : p ∈ ((sortByCmp (fun a b => compareHands b.2 a.2)
          ((room.players.filter (fun p => !p.folded && p.money > 0)).map
            (fun p => (p, evaluateHand p.hand)))).filter
              (fun e => e.2.value = (evaluateHand best.hand).value)).map (fun e => e.1) :=
        (code_winners_iff _ _ _).mpr ⟨hzw.1, by simpa using hzw.2⟩
      have hcont : ((((sortByCmp (fun a b => compareHands b.2 a.2)
          ((room.players.filter (fun p => !p.folded && p.money > 0)).map
            (fun p => (p, evaluateHand p.hand)))).filter
              (fun e => e.2.value = (evaluateHand best.hand).value)).map
                (fun e => e.1)).map (fun w => w.id)).contains p.id = true := by
        simp only [List.contains_iff_exists_mem_beq]
        exact ⟨p.id, List.mem_map.mpr ⟨p, hpcw, rfl⟩, by simp⟩
      rw [if_pos hcont]
      have hlenw := code_winners_length
        (room.players.filter (fun p => !p.folded && p.money > 0))
        (evaluateHand best.hand).value
      rw [if_pos hw]
      by_cases hmulti : (((sortByCmp (fun a b => compareHands b.2 a.2)
          ((room.players.filter (fun p => !p.folded && p.money > 0)).map
            (fun p => (p, evaluateHand p.hand)))).filter
              (fun e => e.2.value = (evaluateHand best.hand).value)).map
                (fun e => e.1)).length > 1
      · rw [if_pos hmulti]
        show p.money + room.pot.fdiv _ = p.money + room.pot.fdiv _
        rw [hlenw]
      · rw [if_neg hmulti]
        have hge1 : 1 ≤ (((sortByCmp (fun a b => compareHands b.2 a.2)
            ((room.players.filter (fun p => !p.folded && p.money > 0)).map
              (fun p => (p, evaluateHand p.hand)))).filter
                (fun e => e.2.value = (evaluateHand best.hand).value)).map
                  (fun e => e.1)).length := by
          have := List.length_pos_of_mem hpcw
          omega
        have hone : ((room.players.filter (fun p => !p.folded && p.money > 0)).filter
            (fun a => (evaluateHand a.hand).value =
              (evaluateHand best.hand).value)).length = 1 := by
          omega
        show p.money + room.pot = p.money + room.pot.fdiv _
        rw [hone]
        simp [Int.fdiv_one]
    · have hnpcw : ¬ p ∈ ((sortByCmp (fun a b => compareHands b.2 a.2)
          ((room.players.filter (fun p => !p.folded && p.money > 0)).map
            (fun p => (p, evaluateHand p.hand)))).filter
              (fun e => e.2.value = (evaluateHand best.hand).value)).map (fun e => e.1) := by
        intro hmem
        have := (code_winners_iff _ _ _).mp hmem
        exact hw (List.mem_filter.mpr ⟨this.1, by simpa using this.2⟩)
      have hcont : ((((sortByCmp (fun a b => compareHands b.2 a.2)
          ((room.players.filter (fun p => !p.folded && p.money > 0)).map
            (fun p => (p, evaluateHand p.hand)))).filter
              (fun e => e.2.value = (evaluateHand best.hand).value)).map
                (fun e => e.1)).map (fun w => w.id)).contains p.id = false := by
        rw [Bool.eq_false_iff]
        intro htrue
        rw [List.contains_iff_exists_mem_beq] at htrue
        obtain ⟨idv, hidv, hbeq⟩ := htrue
        obtain ⟨w2, hw2, hw2id⟩ := List.mem_map.mp hidv
        have hpid : p.id = w2.id := by
          rw [← hw2id] at hbeq
          simpa using hbeq
        have hw2active := ((code_winners_iff _ _ _).mp hw2).1
        have hw2mem : w2 ∈ room.players := (List.mem_filter.mp hw2active).1
        have : w2 = p :=
          List.inj_on_of_nodup_map hnd hw2mem hpmem (by rw [hpid])
        exact hnpcw (this ▸ hw2)
      rw [if_neg (by rw [hcont]; exact Bool.false_ne_true)]
      rw [if_neg hw]
      omega

/-- Witness for the amended claim C2: in cexRoomC2 the triple fives are
the compareHands-best hand, both active players share the winning value
500, and Bob is credited floor(100 / 2). -/
theorem claim_C2_witness :
    ∃ q, (resolveHand cexRoomC2).1.players.get? 1 = some q ∧
      q.money = bobStraight.money +
        (if bobStraight ∈ (cexRoomC2.players.filter (fun p => !p.folded && p.money > 0)).filter
              (fun a => (evaluateHand a.hand).value = (evaluateHand aliceTrips.hand).value)
          then cexRoomC2.pot.fdiv
            (((cexRoomC2.players.filter (fun p => !p.folded && p.money > 0)).filter
              (fun a => (evaluateHand a.hand).value =
                (evaluateHand aliceTrips.hand).value)).length : Int)
          else 0) :=
  (claim_C2_amended cexRoomC2 (by decide)).2.2 aliceTrips (by decide) (by decide)
    (by decide) 1 bobStraight (by decide)

/-! ### The in-hand pot invariant (claim C4) -/

lemma sum_map_set (l : List Player) (f : Player → Int) :
    ∀ (i : Nat) (a b : Player), l.get? i = some a →
      ((l.set i b).map f).sum = (l.map f).sum - f a + f b := by
  induction l with
  | nil => intro i a b h; cases h
  | cons x xs ih =>
    intro i a b h
    cases i with
    | zero =>
      have hxa : x = a := by
        simpa using h
      subst hxa
      simp only [List.set, List.map_cons, List.sum_cons]
      omega
    | succ n =>
      have h' : xs.get? n = some a := h
      simp only [List.set, List.map_cons, List.sum_cons, ih n a b h']
      omega

lemma foldl_anteAndDeal_pot :
    ∀ (ps : List Player) (pot0 : Int) (deck0 : List Card) (done0 : List Player),
      (ps.foldl anteAndDeal (pot0, deck0, done0)).1 =
        pot0 + ((ps.filter (fun p => p.money > 0)).map (fun p => min 100 p.money)).sum := by
  intro ps
  induction ps with
  | nil => intro pot0 deck0 done0; simp
  | cons p rest ih =>
    intro pot0 deck0 done0
    rw [List.foldl_cons]
    by_cases hm : p.money > 0
    · have hfc : (p :: rest).filter (fun p => p.money > 0) =
          p :: rest.filter (fun p => p.money > 0) := by
        simp [List.filter_cons, hm]
      rw [anteAndDeal_solvent _ _ _ _ hm, ih, hfc]
      simp only [List.map_cons, List.sum_cons]
      omega
    · have hfc : (p :: rest).filter (fun p => p.money > 0) =
          rest.filter (fun p => p.money > 0) := by
        simp [List.filter_cons, hm]
      rw [anteAndDeal_broke _ _ _ _ hm, ih, hfc]

lemma foldl_anteAndDeal_bets :
    ∀ (ps : List Player) (pot0 : Int) (deck0 : List Card) (done0 : List Player),
      ((ps.foldl anteAndDeal (pot0, deck0, done0)).2.2.map (fun p => p.currentBet)).sum =
        (done0.map (fun p => p.currentBet)).sum +
        ((ps.filter (fun p => p.money > 0)).map (fun p => min 100 p.money)).sum := by
  intro ps
  induction ps with
  | nil => intro pot0 deck0 done0; simp
  | cons p rest ih =>
    intro pot0 deck0 done0
    rw [List.foldl_cons]
    by_cases hm : p.money > 0
    · have hfc : (p :: rest).filter (fun p => p.money > 0) =
          p :: rest.filter (fun p => p.money > 0) := by
        simp [List.filter_cons, hm]
      rw [anteAndDeal_solvent _ _ _ _ hm, ih, hfc]
      have hap : ((done0 ++ [anteSolvent deck0 p]).map (fun p => p.currentBet)).sum =
          (done0.map (fun p => p.currentBet)).sum + min 100 p.money := by
        rw [List.map_append, List.sum_append]
        show _ + ((min 100 p.money) + 0) = _
        omega
      rw [hap]
      simp only [List.map_cons, List.sum_cons]
      omega
    · have hfc : (p :: rest).filter (fun p => p.money > 0) =
          rest.filter (fun p => p.money > 0) := by
        simp [List.filter_cons, hm]
      rw [anteAndDeal_broke _ _ _ _ hm, ih, hfc]
      have hap : ((done0 ++ [anteBroke p]).map (fun p => p.currentBet)).sum =
          (done0.map (fun p => p.currentBet)).sum + 0 := by
        rw [List.map_append, List.sum_append]
        show _ + ((0 : Int) + 0) = _
        omega
      rw [hap]
      omega

lemma foldl_anteAndDeal_props :
    ∀ (ps : List Player) (pot0 : Int) (deck0 : List Card) (done0 : List Player),
      (∀ q ∈ done0, 0 ≤ q.currentBet ∧ (q.folded = false → 0 ≤ q.money)) →
      ∀ q ∈ (ps.foldl anteAndDeal (pot0, deck0, done0)).2.2,
        0 ≤ q.currentBet ∧ (q.folded = false → 0 ≤ q.money) := by
  intro ps
  induction ps with
  | nil => intro pot0 deck0 done0 h0 q hq; exact h0 q hq
  | cons p rest ih =>
    intro pot0 deck0 done0 h0 q hq
    rw [List.foldl_cons] at hq
    by_cases hm : p.money > 0
    · rw [anteAndDeal_solvent _ _ _ _ hm] at hq
      refine ih _ _ _ ?_ q hq
      intro q2 hq2
      rcases List.mem_append.mp hq2 with hq2 | hq2
      · exact h0 q2 hq2
      · simp only [List.mem_singleton] at hq2
        subst hq2
        constructor
        · show (0 : Int) ≤ min 100 p.money
          omega
        · intro _
          show (0 : Int) ≤ p.money - min 100 p.money
          omega
    · rw [anteAndDeal_broke _ _ _ _ hm] at hq
      refine ih _ _ _ ?_ q hq
      intro q2 hq2
      rcases List.mem_append.mp hq2 with hq2 | hq2
      · exact h0 q2 hq2
      · simp only [List.mem_singleton] at hq2
        subst hq2
        refine ⟨le_refl 0, ?_⟩
        intro hf
        exact absurd hf (by simp [anteBroke])

/-- startNewHand establishes the in-hand invariant on any room. -/
lemma startNewHand_inv (room : Room) (deck : List Card) :
    HandInv (startNewHand room deck) := by
  refine ⟨?_, ?_, le_refl 100, ?_⟩
  · show (room.players.foldl anteAndDeal (0, deck, [])).1 =
      (((room.players.foldl anteAndDeal (0, deck, [])).2.2).map (fun p => p.currentBet)).sum
    rw [foldl_anteAndDeal_pot, foldl_anteAndDeal_bets]
    simp
  · intro q hq
    exact (foldl_anteAndDeal_props room.players 0 deck [] (by simp) q hq).1
  · intro q hq hf
    exact (foldl_anteAndDeal_props room.players 0 deck [] (by simp) q hq).2 hf

/-- An accepted place-bet preserves the in-hand invariant and never
shrinks the pot. -/
lemma placeBet_preserves {room r' : Room} {pid : String} {amount : Int}
    (h : placeBet room pid amount = some r') (hinv : HandInv room) :
    HandInv r' ∧ room.pot ≤ r'.pot := by
  unfold placeBet at h
  cases hfind : room.players.findIdx? (fun p => p.id == pid) with
  | none =>
    simp only [hfind] at h
    exact absurd h (by simp)
  | some i =>
    simp only [hfind] at h
    cases hget : room.players.get? i with
    | none =>
      simp only [hget] at h
      exact absurd h (by simp)
    | some player =>
      simp only [hget] at h
      by_cases h1 : player.folded = true
      · rw [if_pos h1] at h; exact absurd h (by simp)
      · rw [if_neg h1] at h
        by_cases h2 : room.currentTurn ≠ (i : Int)
        · rw [if_pos h2] at h; exact absurd h (by simp)
        · rw [if_neg h2] at h
          by_cases h3 : amount < room.minBet
          · rw [if_pos h3] at h; exact absurd h (by simp)
          · rw [if_neg h3] at h
            by_cases h4 : player.money <
                (if player.viewedCards then amount else amount.fdiv 2)
            · rw [if_pos h4] at h; exact absurd h (by simp)
            · rw [if_neg h4] at h
              have hp0 : player ∈ room.players := List.get?_mem hget
              have hA : 0 ≤ (if player.viewedCards then amount else amount.fdiv 2) := by
                have hmb := hinv.minBet_ge
                by_cases hv : player.viewedCards = true
                · rw [if_pos hv]; omega
                · rw [if_neg hv]
                  exact Int.fdiv_nonneg (by omega) (by omega)
              have hfold : player.folded = false := by
                revert h1; cases player.folded <;> simp
              have hsum := sum_map_set room.players (fun p => p.currentBet) i player
                { player with
                  money := player.money -
                    (if player.viewedCards then amount else amount.fdiv 2),
                  currentBet := player.currentBet +
                    (if player.viewedCards then amount else amount.fdiv 2),
                  actedThisRound := true } hget
              by_cases hmb : amount > room.minBet
              · rw [if_pos hmb] at h
                injection h with h5
                subst h5
                refine ⟨⟨?_, ?_, ?_, ?_⟩, ?_⟩
                · show room.pot + _ = _
                  rw [hsum]
                  have := hinv.pot_eq
                  have hbetp := hinv.bets_nonneg player hp0
                  dsimp only
                  omega
                · intro q hq
                  rcases List.mem_or_eq_of_mem_set hq with hq2 | rfl
                  · exact hinv.bets_nonneg q hq2
                  · have hbetp := hinv.bets_nonneg player hp0
                    show 0 ≤ player.currentBet + _
                    omega
                · show 100 ≤ amount
                  have := hinv.minBet_ge
                  omega
                · intro q hq hf
                  rcases List.mem_or_eq_of_mem_set hq with hq2 | rfl
                  · exact hinv.money_nonneg q hq2 hf
                  · show 0 ≤ player.money - _
                    omega
                · show room.pot ≤ room.pot + _
                  omega
              · rw [if_neg hmb] at h
                injection h with h5
                subst h5
                refine ⟨⟨?_, ?_, ?_, ?_⟩, ?_⟩
                · show room.pot + _ = _
                  rw [hsum]
                  have := hinv.pot_eq
                  have hbetp := hinv.bets_nonneg player hp0
                  dsimp only
                  omega
                · intro q hq
                  rcases List.mem_or_eq_of_mem_set hq with hq2 | rfl
                  · exact hinv.bets_nonneg q hq2
                  · have hbetp := hinv.bets_nonneg player hp0
                    show 0 ≤ player.currentBet + _
                    omega
                · exact hinv.minBet_ge
                · intro q hq hf
                  rcases List.mem_or_eq_of_mem_set hq with hq2 | rfl
                  · exact hinv.money_nonneg q hq2 hf
                  · show 0 ≤ player.money - _
                    omega
                · show room.pot ≤ room.pot + _
                  omega

/-- An accepted fold preserves the in-hand invariant and the pot. -/
lemma foldHand_preserves {room r' : Room} {pid : String}
    (h : foldHand room pid = some r') (hinv : HandInv room) :
    HandInv r' ∧ room.pot ≤ r'.pot := by
  unfold foldHand at h
  cases hfind : room.players.findIdx? (fun p => p.id == pid) with
  | none =>
    simp only [hfind] at h
    exact absurd h (by simp)
  | some i =>
    simp only [hfind] at h
    cases hget : room.players.get? i with
    | none =>
      simp only [hget] at h
      exact absurd h (by simp)
    | some player =>
      simp only [hget] at h
      by_cases h1 : player.folded = true
      · rw [if_pos h1] at h; exact absurd h (by simp)
      · rw [if_neg h1] at h
        by_cases h2 : room.currentTurn ≠ (i : Int)
        · rw [if_pos h2] at h; exact absurd h (by simp)
        · rw [if_neg h2] at h
          injection h with h5
          subst h5
          have hsum := sum_map_set room.players (fun p => p.currentBet) i player
            { player with folded := true, actedThisRound := true } hget
          refine ⟨⟨?_, ?_, hinv.minBet_ge, ?_⟩, le_refl _⟩
          · show room.pot = _
            rw [hsum]
            have := hinv.pot_eq
            dsimp only
            omega
          · intro q hq
            rcases List.mem_or_eq_of_mem_set hq with hq2 | rfl
            · exact hinv.bets_nonneg q hq2
            · exact hinv.bets_nonneg player (List.get?_mem hget)
          · intro q hq hf
            rcases List.mem_or_eq_of_mem_set hq with hq2 | rfl
            · exact hinv.money_nonneg q hq2 hf
            · exact absurd hf (by simp)

/-- An accepted view-cards preserves the in-hand invariant and the pot. -/
lemma viewCards_preserves {room r' : Room} {pid : String}
    (h : viewCards room pid = some r') (hinv : HandInv room) :
    HandInv r' ∧ room.pot ≤ r'.pot := by
  unfold viewCards at h
  cases hfind : room.players.findIdx? (fun p => p.id == pid) with
  | none =>
    simp only [hfind] at h
    exact absurd h (by simp)
  | some i =>
    simp only [hfind] at h
    cases hget : room.players.get? i with
    | none =>
      simp only [hget] at h
      exact absurd h (by simp)
    | some player =>
      simp only [hget] at h
      by_cases h1 : player.viewedCards = true
      · rw [if_pos h1] at h; exact absurd h (by simp)
      · rw [if_neg h1] at h
        by_cases h2 : room.currentTurn ≠ (i : Int)
        · rw [if_pos h2] at h; exact absurd h (by simp)
        · rw [if_neg h2] at h
          injection h with h5
          subst h5
          have hsum := sum_map_set room.players (fun p => p.currentBet) i player
            { player with viewedCards := true } hget
          refine ⟨⟨?_, ?_, hinv.minBet_ge, ?_⟩, le_refl _⟩
          · show room.pot = _
            rw [hsum]
            have := hinv.pot_eq
            dsimp only
            omega
          · intro q hq
            rcases List.mem_or_eq_of_mem_set hq with hq2 | rfl
            · exact hinv.bets_nonneg q hq2
            · exact hinv.bets_nonneg player (List.get?_mem hget)
          · intro q hq hf
            rcases List.mem_or_eq_of_mem_set hq with hq2 | rfl
            · exact hinv.money_nonneg q hq2 hf
            · exact hinv.money_nonneg player (List.get?_mem hget) hf

/-- An accepted all-in preserves the in-hand invariant and never
shrinks the pot. -/
lemma allInMove_preserves {room r' : Room} {pid : String}
    (h : allInMove room pid = some r') (hinv : HandInv room) :
    HandInv r' ∧ room.pot ≤ r'.pot := by
  unfold allInMove at h
  cases hfind : room.players.findIdx? (fun p => p.id == pid) with
  | none =>
    simp only [hfind] at h
    exact absurd h (by simp)
  | some i =>
    simp only [hfind] at h
    cases hget : room.players.get? i with
    | none =>
      simp only [hget] at h
      exact absurd h (by simp)
    | some player =>
      simp only [hget] at h
      by_cases h1 : player.folded = true
      · rw [if_pos h1] at h; exact absurd h (by simp)
      · rw [if_neg h1] at h
        by_cases h2 : player.allIn = true
        · rw [if_pos h2] at h; exact absurd h (by simp)
        · rw [if_neg h2] at h
          by_cases h3 : room.currentTurn ≠ (i : Int)
          · rw [if_pos h3] at h; exact absurd h (by simp)
          · rw [if_neg h3] at h
            have hp0 : player ∈ room.players := List.get?_mem hget
            have hfold : player.folded = false := by
              revert h1; cases player.folded <;> simp
            have hmoney : 0 ≤ player.money := hinv.money_nonneg player hp0 hfold
            have hsum := sum_map_set room.players (fun p => p.currentBet) i player
              { player with
                money := 0, currentBet := player.currentBet + player.money,
                allIn := true, actedThisRound := true } hget
            by_cases hmb : player.money > room.minBet
            · rw [if_pos hmb] at h
              injection h with h5
              subst h5
              refine ⟨⟨?_, ?_, ?_, ?_⟩, ?_⟩
              · show room.pot + _ = _
                rw [hsum]
                have := hinv.pot_eq
                dsimp only
                omega
              · intro q hq
                rcases List.mem_or_eq_of_mem_set hq with hq2 | rfl
                · exact hinv.bets_nonneg q hq2
                · have hbetp := hinv.bets_nonneg player hp0
                  show 0 ≤ player.currentBet + player.money
                  omega
              · show 100 ≤ player.money
                have := hinv.minBet_ge
                omega
              · intro q hq hf
                rcases List.mem_or_eq_of_mem_set hq with hq2 | rfl
                · exact hinv.money_nonneg q hq2 hf
                · exact le_refl 0
              · show room.pot ≤ room.pot + player.money
                omega
            · rw [if_neg hmb] at h
              injection h with h5
              subst h5
              refine ⟨⟨?_, ?_, hinv.minBet_ge, ?_⟩, ?_⟩
              · show room.pot + _ = _
                rw [hsum]
                have := hinv.pot_eq
                dsimp only
                omega
              · intro q hq
                rcases List.mem_or_eq_of_mem_set hq with hq2 | rfl
                · exact hinv.bets_nonneg q hq2
                · have hbetp := hinv.bets_nonneg player hp0
                  show 0 ≤ player.currentBet + player.money
                  omega
              · intro q hq hf
                rcases List.mem_or_eq_of_mem_set hq with hq2 | rfl
                · exact hinv.money_nonneg q hq2 hf
                · exact le_refl 0
              · show room.pot ≤ room.pot + player.money
                omega

/-- An accepted compare-cards duel preserves the in-hand invariant and
the pot. -/
lemma compareCards_preserves {room r' : Room} {pid tid : String}
    (h : compareCards room pid tid = some r') (hinv : HandInv room) :
    HandInv r' ∧ room.pot ≤ r'.pot := by
  unfold compareCards at h
  cases hfi : room.players.findIdx? (fun p => p.id == pid) with
  | none =>
    simp only [hfi] at h
    exact absurd h (by simp)
  | some i =>
    simp only [hfi] at h
    cases hfj : room.players.findIdx? (fun p => p.id == tid) with
    | none =>
      simp only [hfj] at h
      exact absurd h (by simp)
    | some j =>
      simp only [hfj] at h
      cases hgi : room.players.get? i with
      | none =>
        simp only [hgi] at h
        exact absurd h (by simp)
      | some player =>
        cases hgj : room.players.get? j with
        | none =>
          simp only [hgi, hgj] at h
          exact absurd h (by simp)
        | some opponent =>
          simp only [hgi, hgj] at h
          by_cases h1 : (player.folded || opponent.folded) = true
          · rw [if_pos h1] at h; exact absurd h (by simp)
          · rw [if_neg h1] at h
            by_cases h2 : room.currentRound < 2
            · rw [if_pos h2] at h; exact absurd h (by simp)
            · rw [if_neg h2] at h
              by_cases h3 : room.currentTurn ≠ (i : Int)
              · rw [if_pos h3] at h; exact absurd h (by simp)
              · rw [if_neg h3] at h
                by_cases h4 : player.currentBet <
                    (if player.viewedCards then room.minBet else room.minBet.fdiv 2)
                · rw [if_pos h4] at h; exact absurd h (by simp)
                · rw [if_neg h4] at h
                  obtain ⟨hleni, -⟩ := List.get?_eq_some.mp hgi
                  obtain ⟨hlenj, -⟩ := List.get?_eq_some.mp hgj
                  have hpfold : player.folded = false := by
                    revert h1; cases player.folded <;> simp
                  have hofold : opponent.folded = false := by
                    revert h1; cases opponent.folded <;> cases player.folded <;> simp
                  have hpm : player ∈ room.players := List.get?_mem hgi
                  have hom : opponent ∈ room.players := List.get?_mem hgj
                  rcases lt_trichotomy
                    (compareHands (evaluateHand player.hand)
                      (evaluateHand opponent.hand)) 0 with hres | hres | hres
                  · rw [if_neg (by omega : ¬ compareHands (evaluateHand player.hand)
                        (evaluateHand opponent.hand) > 0), if_pos hres,
                      List.get?_set_eq_of_lt _ hleni] at h
                    injection h with h5
                    subst h5
                    have hm1 := map_set_eq_of_agree (fun p => p.currentBet)
                      (room.players.set i { player with folded := true }) i
                      { player with folded := true, actedThisRound := true }
                      (fun a ha => by
                        rw [List.get?_set_eq_of_lt _ hleni] at ha
                        injection ha with ha
                        subst ha
                        rfl)
                    have hm2 := map_set_eq_of_agree (fun p => p.currentBet)
                      room.players i { player with folded := true }
                      (fun a ha => by
                        rw [hgi] at ha
                        injection ha with ha
                        subst ha
                        rfl)
                    refine ⟨⟨?_, ?_, hinv.minBet_ge, ?_⟩, le_refl _⟩
                    · show room.pot = _
                      rw [hm1, hm2]
                      exact hinv.pot_eq
                    · intro q hq
                      rcases List.mem_or_eq_of_mem_set hq with hq2 | rfl
                      · rcases List.mem_or_eq_of_mem_set hq2 with hq3 | rfl
                        · exact hinv.bets_nonneg q hq3
                        · exact hinv.bets_nonneg player hpm
                      · exact hinv.bets_nonneg player hpm
                    · intro q hq hf
                      rcases List.mem_or_eq_of_mem_set hq with hq2 | rfl
                      · rcases List.mem_or_eq_of_mem_set hq2 with hq3 | rfl
                        · exact hinv.money_nonneg q hq3 hf
                        · exact absurd hf (by simp)
                      · exact absurd hf (by simp)
                  · rw [if_neg (by omega : ¬ compareHands (evaluateHand player.hand)
                        (evaluateHand opponent.hand) > 0),
                      if_neg (by omega : ¬ compareHands (evaluateHand player.hand)
                        (evaluateHand opponent.hand) < 0), hgi] at h
                    injection h with h5
                    subst h5
                    have hm1 := map_set_eq_of_agree (fun p => p.currentBet)
                      room.players i { player with actedThisRound := true }
                      (fun a ha => by
                        rw [hgi] at ha
                        injection ha with ha
                        subst ha
                        rfl)
                    refine ⟨⟨?_, ?_, hinv.minBet_ge, ?_⟩, le_refl _⟩
                    · show room.pot = _
                      rw [hm1]
                      exact hinv.pot_eq
                    · intro q hq
                      rcases List.mem_or_eq_of_mem_set hq with hq2 | rfl
                      · exact hinv.bets_nonneg q hq2
                      · exact hinv.bets_nonneg player hpm
                    · intro q hq hf
                      rcases List.mem_or_eq_of_mem_set hq with hq2 | rfl
                      · exact hinv.money_nonneg q hq2 hf
                      · exact hinv.money_nonneg player hpm hpfold
                  · have hij : i ≠ j := by
                      intro hEq
                      subst hEq
                      rw [hgi] at hgj
                      injection hgj with hgj2
                      subst hgj2
                      rw [compareHands_self] at hres
                      omega
                    rw [if_pos hres, List.get?_set_ne _ _ (fun hx => hij hx.symm),
                      hgi] at h
                    injection h with h5
                    subst h5
                    have hm1 := map_set_eq_of_agree (fun p => p.currentBet)
                      (room.players.set j { opponent with folded := true }) i
                      { player with actedThisRound := true }
                      (fun a ha => by
                        rw [List.get?_set_ne _ _ hij.symm, hgi] at ha
                        injection ha with ha
                        subst ha
                        rfl)
                    have hm2 := map_set_eq_of_agree (fun p => p.currentBet)
                      room.players j { opponent with folded := true }
                      (fun a ha => by
                        rw [hgj] at ha
                        injection ha with ha
                        subst ha
                        rfl)
                    refine ⟨⟨?_, ?_, hinv.minBet_ge, ?_⟩, le_refl _⟩
                    · show room.pot = _
                      rw [hm1, hm2]
                      exact hinv.pot_eq
                    · intro q hq
                      rcases List.mem_or_eq_of_mem_set hq with hq2 | rfl
                      · rcases List.mem_or_eq_of_mem_set hq2 with hq3 | rfl
                        · exact hinv.bets_nonneg q hq3
                        · exact hinv.bets_nonneg opponent hom
                      · exact hinv.bets_nonneg player hpm
                    · intro q hq hf
                      rcases List.mem_or_eq_of_mem_set hq with hq2 | rfl
                      · rcases List.mem_or_eq_of_mem_set hq2 with hq3 | rfl
                        · exact hinv.money_nonneg q hq3 hf
                        · exact absurd hf (by simp)
                      · exact hinv.money_nonneg player hpm hpfold

/-- The round advance preserves the in-hand invariant and the pot. -/
lemma advanceRound_preserves (room : Room) (hinv : HandInv room) :
    HandInv (checkAndAdvanceRound room).1 ∧
      room.pot ≤ (checkAndAdvanceRound room).1.pot := by
  unfold checkAndAdvanceRound
  by_cases hc : (room.players.filter (fun p => !p.folded && p.money > 0)).length ≤ 1
  · rw [if_pos hc]
    exact ⟨hinv, le_refl _⟩
  · rw [if_neg hc]
    dsimp only
    refine ⟨⟨?_, ?_, hinv.minBet_ge, ?_⟩, le_refl _⟩
    · show room.pot = _
      rw [List.map_map]
      exact hinv.pot_eq
    · intro q hq
      obtain ⟨p, hp, rfl⟩ := List.mem_map.mp hq
      exact hinv.bets_nonneg p hp
    · intro q hq hf
      obtain ⟨p, hp, rfl⟩ := List.mem_map.mp hq
      exact hinv.money_nonneg p hp hf

/-- Every accepted in-hand step preserves the invariant and never
shrinks the pot. -/
lemma handStep_preserves {r r' : Room} (hinv : HandInv r) (hstep : HandStep r r') :
    HandInv r' ∧ r.pot ≤ r'.pot := by
  cases hstep with
  | placeBet _ pid amount h => exact placeBet_preserves h hinv
  | fold _ pid h => exact foldHand_preserves h hinv
  | allIn _ pid h => exact allInMove_preserves h hinv
  | viewCards _ pid h => exact viewCards_preserves h hinv
  | compareCards _ pid tid h => exact compareCards_preserves h hinv
  | advanceRound h => exact advanceRound_preserves r hinv

/-- Claim C4: in every room state reachable from startNewHand by
accepted place-bet, fold, all-in, view-cards and compare-cards actions
(and the round advances the handlers perform) within one hand, the pot
is nonnegative and equals the sum of all player currentBet accumulators
(the actual charged amounts of the hand: antes, bets and all-ins), and
no step ever decreases the pot. -/
theorem claim_C4 (r0 : Room) (deck : List Card) (r : Room)
    (hreach : Relation.ReflTransGen HandStep (startNewHand r0 deck) r) :
    (0 ≤ r.pot ∧ r.pot = (r.players.map (fun p => p.currentBet)).sum) ∧
    (∀ r2, HandStep r r2 → r.pot ≤ r2.pot) := by
  have hinv : HandInv r := by
    induction hreach with
    | refl => exact startNewHand_inv r0 deck
    | tail hab hstep ih => exact (handStep_preserves ih hstep).1
  refine ⟨⟨?_, hinv.pot_eq⟩, ?_⟩
  · rw [hinv.pot_eq]
    apply List.sum_nonneg
    intro x hx
    obtain ⟨q, hq, rfl⟩ := List.mem_map.mp hx
    exact hinv.bets_nonneg q hq
  · intro r2 hstep
    exact (handStep_preserves hinv hstep).2

/-- Witness for claim C4: the freshly started sample hand, reached by
the empty action sequence, already satisfies the pot accounting. -/
theorem claim_C4_witness :
    0 ≤ (startNewHand sampleRoom createDeck).pot ∧
    (startNewHand sampleRoom createDeck).pot =
      ((startNewHand sampleRoom createDeck).players.map (fun p => p.currentBet)).sum :=
  (claim_C4 sampleRoom createDeck (startNewHand sampleRoom createDeck)
    Relation.ReflTransGen.refl).1
